import Mathlib

/-!
Verification of the gpx.studio document state engine.

The embedding mirrors the repository's database module (file state map,
immer-style patch pairs, persisted patch log with cursor, and the
selection-driven edit operations) together with the statistics tree.

Conventions of the shallow embedding:
* GPS coordinates are modelled with integer latitude/longitude; the numeric
  `distance` scalar of the external geometry collaborator is a parameter of
  every definition that needs it.
* Document ids `gpx-{i}` are modelled by their numeric index `i` where the
  string form does not matter; the id-generation claims use the string form.
* The in-memory `fileState` map (a JS `Map<string, GPXFile>`) is modelled as
  an association list sorted strictly by key, which gives structural value
  equality of states.
-/

namespace GpxStudio

/-! ## Document model (gpx library value types) -/

/-- Integer-modelled geographic coordinates (`lat`, `lon`). -/
structure Coordinates where
  lat : Int
  lon : Int
  deriving DecidableEq, Repr

/-- One point of a track segment; the optional timestamp travels with it. -/
structure TrackPoint where
  coord : Coordinates
  time : Option Int := none
  deriving DecidableEq, Repr

/-- A standalone labeled point attached to a file. -/
structure Waypoint where
  coord : Coordinates
  ele : Int := 0
  hidden : Bool := false
  deriving DecidableEq, Repr

/-- An ordered sequence of track points. -/
structure TrackSegment where
  trkpt : List TrackPoint := []
  hidden : Bool := false
  deriving DecidableEq, Repr

/-- An ordered sequence of segments with style attributes. -/
structure Track where
  name : Option String := none
  trkseg : List TrackSegment := []
  style : Option Nat := none
  hidden : Bool := false
  deriving DecidableEq, Repr

/-- A GPS document: metadata name, tracks, waypoints, and hidden flags. -/
structure GPXFile where
  name : String := ""
  trk : List Track := []
  wpt : List Waypoint := []
  style : Option Nat := none
  hidden : Bool := false
  hiddenWpt : Bool := false
  deriving DecidableEq, Repr

def TrackSegment.getNumberOfTrackPoints (s : TrackSegment) : Nat :=
  s.trkpt.length

/-- `track.getSegments()` of the gpx library returns the segment list. -/
def Track.getSegments (t : Track) : List TrackSegment :=
  t.trkseg

def Track.getNumberOfTrackPoints (t : Track) : Nat :=
  (t.trkseg.map (fun s => s.trkpt.length)).sum

def GPXFile.getNumberOfTrackPoints (f : GPXFile) : Nat :=
  (f.trk.map Track.getNumberOfTrackPoints).sum

/-- All track points of a file, in track-major order. -/
def GPXFile.allPoints (f : GPXFile) : List TrackPoint :=
  f.trk.flatMap (fun t => t.trkseg.flatMap TrackSegment.trkpt)

/-- Modelled from the spec (§4.1, gpx library body not under `src/`):
`replaceRange(container, startIndex, endIndex, newItems)` replaces the
inclusive index range `[start, end]` with `newItems`; `end < start` means
pure insertion at `start`; out-of-range indices are clamped. -/
def replaceRange (l : List α) (start endIdx : Int) (newItems : List α) : List α :=
  let s : Nat := min (max start 0).toNat l.length
  let d : Nat := min (max (endIdx + 1) (s : Int)).toNat l.length
  l.take s ++ newItems ++ l.drop d

def GPXFile.replaceTracks (f : GPXFile) (start endIdx : Int) (tracks : List Track) : GPXFile :=
  { f with trk := replaceRange f.trk start endIdx tracks }

def GPXFile.replaceWaypoints (f : GPXFile) (start endIdx : Int) (wpts : List Waypoint) : GPXFile :=
  { f with wpt := replaceRange f.wpt start endIdx wpts }

/-- Update the element at index `i` (no-op when out of range). -/
def listUpdateAt (l : List α) (i : Nat) (g : α → α) : List α :=
  l.modify g i

def Track.replaceSegments (t : Track) (start endIdx : Int)
    (segs : List TrackSegment) : Track :=
  { t with trkseg := replaceRange t.trkseg start endIdx segs }

def GPXFile.replaceTrackSegments (f : GPXFile) (trackIndex : Nat) (start endIdx : Int)
    (segs : List TrackSegment) : GPXFile :=
  { f with trk := listUpdateAt f.trk trackIndex (fun t => t.replaceSegments start endIdx segs) }

def TrackSegment.replacePoints (s : TrackSegment) (start endIdx : Int)
    (pts : List TrackPoint) : TrackSegment :=
  { s with trkpt := replaceRange s.trkpt start endIdx pts }

def Track.replacePointsAt (t : Track) (segmentIndex : Nat) (start endIdx : Int)
    (pts : List TrackPoint) : Track :=
  { t with trkseg := listUpdateAt t.trkseg segmentIndex (fun s => s.replacePoints start endIdx pts) }

def GPXFile.replaceTrackPoints (f : GPXFile) (trackIndex segmentIndex : Nat)
    (start endIdx : Int) (pts : List TrackPoint) : GPXFile :=
  { f with trk := listUpdateAt f.trk trackIndex (fun t => t.replacePointsAt segmentIndex start endIdx pts) }

/-! ## The document state map

`fileState : Map<string, GPXFile>` modelled as an association list sorted
strictly by key, so that equal maps are structurally equal lists. -/

abbrev FileId := Nat

/-- Association-list store sorted strictly by key. -/
abbrev KVList (κ : Type) (α : Type) := List (κ × α)

def kvKeys (l : KVList κ α) : List κ := l.map Prod.fst

/-- Well-formedness: keys strictly increasing. -/
def KVWF [LT κ] (l : KVList κ α) : Prop := (kvKeys l).Chain' (· < ·)

instance kvWFDecidable [LT κ] [DecidableRel (α := κ) (· < ·)] (l : KVList κ α) :
    Decidable (KVWF l) :=
  inferInstanceAs (Decidable ((kvKeys l).Chain' (· < ·)))

def kvLookup [DecidableEq κ] : KVList κ α → κ → Option α
  | [], _ => none
  | (k', v) :: t, k => if k = k' then some v else kvLookup t k

def kvPut [LinearOrder κ] : KVList κ α → κ → α → KVList κ α
  | [], k, v => [(k, v)]
  | (k', v') :: t, k, v =>
    if k < k' then (k, v) :: (k', v') :: t
    else if k = k' then (k, v) :: t
    else (k', v') :: kvPut t k v

def kvDel [DecidableEq κ] : KVList κ α → κ → KVList κ α
  | [], _ => []
  | (k', v') :: t, k => if k = k' then t else (k', v') :: kvDel t k

abbrev DocumentState := KVList FileId GPXFile

/-! ## Patch engine

Modelled from the spec (§4.2/§9): the source delegates structural diffing to
the external immer library (`produceWithPatches` / `applyPatches`), which is
not part of this repository.  The differ is modelled at document granularity
(each patch op targets one document id, matching `getChangedFileIds` reading
`p.path[0]`). -/

inductive PatchOp where
  /-- Put (add or replace) the document stored under `id`. -/
  | put (id : FileId) (file : GPXFile)
  /-- Remove the document stored under `id`. -/
  | remove (id : FileId)
  deriving DecidableEq, Repr

abbrev Patch := List PatchOp

def PatchOp.key : PatchOp → FileId
  | .put k _ => k
  | .remove k => k

def applyPatchOp (s : DocumentState) : PatchOp → DocumentState
  | .put k v => kvPut s k v
  | .remove k => kvDel s k

/-- `applyPatches` of immer: fold the ops over the state. -/
def applyPatches (s : DocumentState) (p : Patch) : DocumentState :=
  p.foldl applyPatchOp s

/-- Sorted merge of two strictly sorted key lists, removing duplicates. -/
def mergedKeys : List Nat → List Nat → List Nat
  | [], ks => ks
  | k :: t, [] => k :: t
  | k :: t, k' :: t' =>
    if k < k' then k :: mergedKeys t (k' :: t')
    else if k' < k then k' :: mergedKeys (k :: t) t'
    else k :: mergedKeys t t'
termination_by a b => a.length + b.length

/-- The structural diff: one op per changed key. -/
def diffOps (before after : DocumentState) : Patch :=
  (mergedKeys (kvKeys before) (kvKeys after)).filterMap fun k =>
    match kvLookup after k with
    | some v => if kvLookup before k = some v then none else some (.put k v)
    | none =>
      match kvLookup before k with
      | some _ => some (.remove k)
      | none => none

/-- `produceWithPatches(state, callback)` returns the new state and the
forward/inverse patch pair recorded while running the callback. -/
def produceWithPatches (s : DocumentState) (callback : DocumentState → DocumentState) :
    DocumentState × Patch × Patch :=
  let s' := callback s
  (s', diffOps s s', diffOps s' s)

/-- The value a patch op leaves under its own key. -/
def PatchOp.effect : PatchOp → Option GPXFile
  | .put _ v => some v
  | .remove _ => none

/-- The function from which `diffOps` is built. -/
def diffOpAt (before after : DocumentState) (k : FileId) : Option PatchOp :=
  match kvLookup after k with
  | some v => if kvLookup before k = some v then none else some (.put k v)
  | none =>
    match kvLookup before k with
    | some _ => some (.remove k)
    | none => none

/-! ## Persistent log store and undo/redo controller

Mirrors the `patches` table (keyed by integer index), the `patchIndex`
setting (the history cursor, initially `-1`), `patchMinMaxIndex`,
`canUndo`/`canRedo`, `storePatches`, and `dbUtils.undo`/`dbUtils.redo`. -/

/-- One row of the `patches` table: `{patch, inversePatch, index}`. -/
structure PatchTableEntry where
  patch : Patch
  inversePatch : Patch
  index : Int
  deriving DecidableEq, Repr

abbrev PatchTable := KVList Int PatchTableEntry

/-- The state owned by the database module: the live file map, the patch
log table, and the `patchIndex` cursor setting. -/
structure UndoRedoState where
  fileState : DocumentState
  patches : PatchTable
  patchIndex : Int
  deriving DecidableEq, Repr

/-- `patchMinMaxIndex`: `{min: 0, max: 0}` for an empty table, else
`{min: firstKey, max: lastKey + 1}`. -/
def patchMinMaxIndex (l : PatchTable) : Int × Int :=
  match l with
  | [] => (0, 0)
  | x :: xs => (x.1, (xs.getLastD x).1 + 1)

def canUndo (s : UndoRedoState) : Bool :=
  s.patchIndex ≥ (patchMinMaxIndex s.patches).1

def canRedo (s : UndoRedoState) : Bool :=
  s.patchIndex < (patchMinMaxIndex s.patches).2 - 1

def MAX_PATCHES : Int := 100

/-- `storePatches`: delete the stale redo tail (entries above the cursor),
prune from the low end when over capacity (the bound is computed from the
`patchMinMaxIndex` value observed before the deletes), then append the new
entry at `cursor + 1` and advance the cursor. -/
def storePatches (patch inversePatch : Patch) (s : UndoRedoState) : UndoRedoState :=
  let l1 := s.patches.filter (fun e => decide (e.1 ≤ s.patchIndex))
  let mm := patchMinMaxIndex s.patches
  let l2 := if mm.2 - mm.1 + 1 > MAX_PATCHES
    then l1.filter (fun e => decide (mm.2 - MAX_PATCHES < e.1))
    else l1
  let index := s.patchIndex + 1
  { s with patches := kvPut l2 index ⟨patch, inversePatch, index⟩, patchIndex := index }

/-- `applyGlobal`: run the callback on a draft of the file state, store the
recorded patch pair, and commit the new file state. -/
def applyGlobal (callback : DocumentState → DocumentState) (s : UndoRedoState) : UndoRedoState :=
  let res := produceWithPatches s.fileState callback
  let s' := storePatches res.2.1 res.2.2 s
  { s' with fileState := res.1 }

/-- `applyPatch` followed by `commitFileStateChange`: replace the live file
state without touching the log. -/
def applyPatchCommit (p : Patch) (s : UndoRedoState) : UndoRedoState :=
  { s with fileState := applyPatches s.fileState p }

/-- `dbUtils.undo`: no-op unless `canUndo`; fetch the entry at the cursor,
apply its inverse patch and move the cursor down (only when the entry
exists, as in the source's `if (patch)` guard). -/
def undo (s : UndoRedoState) : UndoRedoState :=
  if canUndo s then
    match kvLookup s.patches s.patchIndex with
    | some entry => { applyPatchCommit entry.inversePatch s with patchIndex := s.patchIndex - 1 }
    | none => s
  else s

/-- `dbUtils.redo`: no-op unless `canRedo`; fetch the entry at `cursor + 1`,
apply its forward patch and move the cursor up. -/
def redo (s : UndoRedoState) : UndoRedoState :=
  if canRedo s then
    match kvLookup s.patches (s.patchIndex + 1) with
    | some entry => { applyPatchCommit entry.patch s with patchIndex := s.patchIndex + 1 }
    | none => s
  else s

/-- Keys form the contiguous integer range starting at `a`. -/
def isContigFrom : Int → List Int → Bool
  | _, [] => true
  | a, k :: ks => decide (k = a) && isContigFrom (a + 1) ks

/-- Invariant of the persisted log: entries form a contiguous key range
`[min, max)` and the cursor satisfies `min - 1 ≤ cursor ≤ max - 1`. -/
def LogWF (s : UndoRedoState) : Prop :=
  isContigFrom (patchMinMaxIndex s.patches).1 (kvKeys s.patches) = true ∧
  (patchMinMaxIndex s.patches).1 - 1 ≤ s.patchIndex ∧
  s.patchIndex ≤ (patchMinMaxIndex s.patches).2 - 1

instance logWFDecidable (s : UndoRedoState) : Decidable (LogWF s) :=
  inferInstanceAs (Decidable (_ ∧ _ ∧ _))

/-! ## Selection items and the ordered traversal

`ListItem`/`ListLevel` of the file-list module (a tagged variant per
hierarchy level).  The Selection Provider is an external collaborator
(spec §6): each operation receives its ordered traversal
(`applyToOrderedSelectedItemsFromFile`) as an input here — a list of
`(fileId, level, items)` callback invocations.  The selection is empty
iff its traversal is empty. -/

inductive ListLevel where
  | ROOT
  | FILE
  | TRACK
  | SEGMENT
  | WAYPOINTS
  | WAYPOINT
  deriving DecidableEq, Repr

inductive ListItem where
  | root
  | file (fileId : FileId)
  | track (fileId : FileId) (trackIndex : Nat)
  | segment (fileId : FileId) (trackIndex segmentIndex : Nat)
  | waypoints (fileId : FileId)
  | waypoint (fileId : FileId) (waypointIndex : Nat)
  deriving DecidableEq, Repr

def ListItem.getTrackIndex : ListItem → Nat
  | .track _ i => i
  | .segment _ i _ => i
  | _ => 0

def ListItem.getSegmentIndex : ListItem → Nat
  | .segment _ _ j => j
  | _ => 0

def ListItem.getWaypointIndex : ListItem → Nat
  | .waypoint _ i => i
  | _ => 0

structure TraversalEntry where
  fileId : FileId
  level : ListLevel
  items : List ListItem
  deriving DecidableEq, Repr

abbrev Traversal := List TraversalEntry

/-- Modelled from the spec (§6): the Selection Provider's emptiness query
(`hasAnyChildren` on the root item) used to short-circuit operations —
false exactly on the empty selection, whose traversal is empty. -/
def selectionHasAnyChildren (trav : Traversal) : Bool :=
  !trav.isEmpty

/-- `getFile` reads the committed per-document snapshot. -/
def getFile (orig : DocumentState) (fileId : FileId) : Option GPXFile :=
  kvLookup orig fileId

/-- Numeric model of `getFileIds`: the first `n` ids not used by a live
document (searching indices in increasing order). -/
def freshIds (orig : DocumentState) (n : Nat) : List FileId :=
  ((List.range (n + orig.length)).filter (fun i => !(kvKeys orig).contains i)).take n

/-! ## Spec-modelled structural primitives of the gpx library

The bodies of `GPXFile.crop`, `reverse`, `clean`, `setStyle`, `setHidden`
and friends live in the gpx library package, which is not under `src/`
(only `io.ts` is); they are modelled from spec §4.1. -/

/-- Modelled from the spec: segment crop keeps only the points whose index
lies in the inclusive range `[start, endIdx]`. -/
def TrackSegment.crop (s : TrackSegment) (start endIdx : Int) : TrackSegment :=
  { s with trkpt := (s.trkpt.enum.filterMap
      (fun p => if start ≤ (p.1 : Int) ∧ (p.1 : Int) ≤ endIdx then some p.2 else none)) }

/-- Crop every segment against a global point range running across the
list (each segment shifts the range by its length). -/
def cropSegList : List TrackSegment → Int → Int → List TrackSegment
  | [], _, _ => []
  | s :: rest, start, endIdx =>
    s.crop start endIdx :: cropSegList rest (start - s.trkpt.length) (endIdx - s.trkpt.length)

/-- Modelled from the spec: track crop keeps points in the global range and
deletes segments that become empty. -/
def Track.crop (t : Track) (start endIdx : Int) : Track :=
  { t with trkseg := (cropSegList t.trkseg start endIdx).filter (fun s => !s.trkpt.isEmpty) }

def cropTrkList : List Track → Int → Int → List Track
  | [], _, _ => []
  | t :: rest, start, endIdx =>
    t.crop start endIdx ::
      cropTrkList rest (start - t.getNumberOfTrackPoints) (endIdx - t.getNumberOfTrackPoints)

/-- Modelled from the spec: file-level crop keeps only points in the
inclusive global point range, deleting points, then segments, then tracks
that become empty, and deletes the whole file (result `none`) if the
resulting point count is zero. -/
def GPXFile.crop (f : GPXFile) (start endIdx : Int) : Option GPXFile :=
  let f' := { f with
    trk := (cropTrkList f.trk start endIdx).filter (fun t => t.getNumberOfTrackPoints ≠ 0) }
  if f'.getNumberOfTrackPoints = 0 then none else some f'

/-- Point count of a track restricted to selected segments. -/
def selScopeLength (t : Track) (segmentIndices : Option (List Nat)) : Nat :=
  match segmentIndices with
  | none => t.getNumberOfTrackPoints
  | some sgs =>
    ((t.trkseg.enum.filterMap
      (fun si => if sgs.contains si.1 then some si.2.trkpt.length else none)).sum)

/-- Segment crop restricted to selected segments; unselected segments are
untouched and do not advance the point range. -/
def cropSegListSel : List (Nat × TrackSegment) → Int → Int → List Nat → List TrackSegment
  | [], _, _, _ => []
  | (i, s) :: rest, start, endIdx, segIdxs =>
    if segIdxs.contains i then
      s.crop start endIdx ::
        cropSegListSel rest (start - s.trkpt.length) (endIdx - s.trkpt.length) segIdxs
    else
      s :: cropSegListSel rest start endIdx segIdxs

/-- Crop restricted to selected tracks (and, inside them, selected
segments): unselected containers are untouched and do not advance the
point range. -/
def cropTrkListSel : List (Nat × Track) → Int → Int → List Nat → Option (List Nat) → List Track
  | [], _, _, _, _ => []
  | (i, t) :: rest, start, endIdx, trackIndices, segmentIndices =>
    if trackIndices.contains i then
      let cropped :=
        match segmentIndices with
        | none => t.crop start endIdx
        | some segIdxs =>
          { t with trkseg :=
              ((cropSegListSel t.trkseg.enum start endIdx segIdxs).filter
                (fun s => !s.trkpt.isEmpty)) }
      let len : Int := selScopeLength t segmentIndices
      cropped :: cropTrkListSel rest (start - len) (endIdx - len) trackIndices segmentIndices
    else
      t :: cropTrkListSel rest start endIdx trackIndices segmentIndices

/-- Modelled from the spec: `crop(entity, start, end, selectors)` — the
selector-aware file crop used by the track- and segment-level branches of
`cropSelection`.  Deletes the file when no points remain. -/
def GPXFile.cropSel (f : GPXFile) (start endIdx : Int) (trackIndices : List Nat)
    (segmentIndices : Option (List Nat)) : Option GPXFile :=
  let f' := { f with
    trk := (cropTrkListSel f.trk.enum start endIdx trackIndices segmentIndices).filter
      (fun t => t.getNumberOfTrackPoints ≠ 0) }
  if f'.getNumberOfTrackPoints = 0 then none else some f'

/-- Modelled from the spec (§4.1): reverse the point order within the
scope; timestamps travel with their point. -/
def TrackSegment.reverse (s : TrackSegment) : TrackSegment :=
  { s with trkpt := s.trkpt.reverse }

def Track.reverse (t : Track) : Track :=
  { t with trkseg := (t.trkseg.map TrackSegment.reverse).reverse }

def GPXFile.reverse (f : GPXFile) : GPXFile :=
  { f with trk := (f.trk.map Track.reverse).reverse }

def GPXFile.reverseTrack (f : GPXFile) (trackIndex : Nat) : GPXFile :=
  { f with trk := listUpdateAt f.trk trackIndex Track.reverse }

def GPXFile.reverseTrackSegment (f : GPXFile) (trackIndex segmentIndex : Nat) : GPXFile :=
  { f with trk := (listUpdateAt f.trk trackIndex
      (fun t => { t with trkseg := listUpdateAt t.trkseg segmentIndex TrackSegment.reverse })) }

/-- Integer-modelled geometry: point containment in a bounds pair. -/
def pointInBounds (c : Coordinates) (bounds : Coordinates × Coordinates) : Bool :=
  decide (min bounds.1.lat bounds.2.lat ≤ c.lat) && decide (c.lat ≤ max bounds.1.lat bounds.2.lat) &&
  decide (min bounds.1.lon bounds.2.lon ≤ c.lon) && decide (c.lon ≤ max bounds.1.lon bounds.2.lon)

/-- Modelled from the spec (§4.6): delete points/waypoints inside or
outside the bounds at the selected levels, optionally sparing waypoints. -/
def GPXFile.clean (f : GPXFile) (bounds : Coordinates × Coordinates) (inside : Bool)
    (deleteTrackPoints deleteWaypoints : Bool)
    (trackIndices : Option (List Nat) := none)
    (segmentIndices : Option (List Nat) := none)
    (waypointIndices : Option (List Nat) := none) : GPXFile :=
  let keepPoint := fun (c : Coordinates) => pointInBounds c bounds ≠ inside
  let trk' :=
    if deleteTrackPoints then
      f.trk.enum.map (fun ti =>
        if trackIndices.elim true (fun l => l.contains ti.1) then
          { ti.2 with trkseg := (ti.2.trkseg.enum.map (fun si =>
              if segmentIndices.elim true (fun l => l.contains si.1) then
                { si.2 with trkpt := si.2.trkpt.filter (fun p => keepPoint p.coord) }
              else si.2)).filter (fun s => !s.trkpt.isEmpty) }
        else ti.2)
    else f.trk
  let wpt' :=
    if deleteWaypoints then
      (f.wpt.enum.filterMap (fun wi =>
        if waypointIndices.elim true (fun l => l.contains wi.1) then
          if keepPoint wi.2.coord then some wi.2 else none
        else some wi.2))
    else f.wpt
  { f with trk := trk', wpt := wpt' }

/-- Modelled from the spec (§4.1): style setter; setting the whole child
set collapses to setting the parent. -/
def GPXFile.setStyle (f : GPXFile) (style : Nat) : GPXFile :=
  { f with style := some style }

def Track.setStyle (t : Track) (style : Nat) : Track :=
  { t with style := some style }

/-- Modelled from the spec (§4.1): hidden-flag setter at file, track or
segment granularity. -/
def GPXFile.setHidden (f : GPXFile) (hidden : Bool)
    (trackIndices : Option (List Nat) := none)
    (segmentIndices : Option (List Nat) := none) : GPXFile :=
  match trackIndices with
  | none => { f with hidden := hidden }
  | some tks =>
    { f with trk := f.trk.enum.map (fun ti =>
        if tks.contains ti.1 then
          match segmentIndices with
          | none => { ti.2 with hidden := hidden }
          | some sgs =>
            { ti.2 with trkseg := ti.2.trkseg.enum.map (fun si =>
                if sgs.contains si.1 then { si.2 with hidden := hidden } else si.2) }
        else ti.2) }

def GPXFile.setHiddenWaypoints (f : GPXFile) (hidden : Bool)
    (waypointIndices : Option (List Nat) := none) : GPXFile :=
  match waypointIndices with
  | none => { f with hiddenWpt := hidden }
  | some ws =>
    { f with wpt := f.wpt.enum.map (fun wi =>
        if ws.contains wi.1 then { wi.2 with hidden := hidden } else wi.2) }

/-! ## Edit operation library (`dbUtils`)

Each operation takes its ordered selection traversal as an input (the
Selection Provider is external, §6) and runs on an `UndoRedoState`. -/

/-- `dbUtils.add`: insert the file under a fresh id. -/
def addFile (f : GPXFile) (s : UndoRedoState) : UndoRedoState :=
  applyGlobal (fun draft => kvPut draft ((freshIds s.fileState 1).headD 0) f) s

/-- `dbUtils.addMultiple`: insert the files under fresh ids. -/
def addMultiple (files : List GPXFile) (s : UndoRedoState) : UndoRedoState :=
  applyGlobal (fun draft =>
    (List.zip (freshIds s.fileState files.length) files).foldl
      (fun d p => kvPut d p.1 p.2) draft) s

/-- One `duplicateSelection` traversal step. -/
def duplicateStep (orig : DocumentState) (ids : List FileId)
    (acc : DocumentState × Nat) (entry : TraversalEntry) : DocumentState × Nat :=
  let (draft, index) := acc
  match entry.level with
  | .FILE =>
    match getFile orig entry.fileId with
    | some file => (kvPut draft (ids.getD index 0) file, index + 1)
    | none => (draft, index)
  | _ =>
    match kvLookup draft entry.fileId with
    | none => (draft, index)
    | some file =>
      let file' :=
        match entry.level with
        | .TRACK =>
          entry.items.foldl (fun f item =>
            let tk : Nat := item.getTrackIndex
            f.replaceTracks ((tk : Int) + 1) (tk : Int) ((f.trk.get? tk).toList)) file
        | .SEGMENT =>
          entry.items.foldl (fun f item =>
            let tk : Nat := item.getTrackIndex
            let sg : Nat := item.getSegmentIndex
            f.replaceTrackSegments tk ((sg : Int) + 1) (sg : Int)
              ((((f.trk.get? tk).map (fun t => t.trkseg.get? sg)).getD none).toList)) file
        | .WAYPOINTS =>
          file.replaceWaypoints file.wpt.length ((file.wpt.length : Int) - 1) file.wpt
        | .WAYPOINT =>
          entry.items.foldl (fun f item =>
            let wi : Nat := item.getWaypointIndex
            f.replaceWaypoints ((wi : Int) + 1) (wi : Int) ((f.wpt.get? wi).toList)) file
        | _ => file
      (kvPut draft entry.fileId file', index)

/-- `dbUtils.duplicateSelection` (early return on an empty selection). -/
def duplicateSelection (trav : Traversal) (s : UndoRedoState) : UndoRedoState :=
  if trav.isEmpty then s
  else applyGlobal (fun draft =>
    (trav.foldl (duplicateStep s.fileState (freshIds s.fileState s.fileState.length)) (draft, 0)).1) s

/-- `dbUtils.reverseSelection` (early return when nothing but waypoints is
selected — in particular on the empty selection). -/
def reverseSelection (trav : Traversal) (s : UndoRedoState) : UndoRedoState :=
  if !selectionHasAnyChildren trav then s
  else applyGlobal (fun draft =>
    trav.foldl (fun d entry =>
      match kvLookup d entry.fileId with
      | none => d
      | some file =>
        match entry.level with
        | .FILE => kvPut d entry.fileId file.reverse
        | .TRACK => kvPut d entry.fileId
            (entry.items.foldl (fun f item => f.reverseTrack item.getTrackIndex) file)
        | .SEGMENT => kvPut d entry.fileId
            (entry.items.foldl
              (fun f item => f.reverseTrackSegment item.getTrackIndex item.getSegmentIndex) file)
        | _ => d) draft) s

/-- One `cropSelection` traversal step; the running `(start, end)` window
is decremented only by file-level entries, as in the source. -/
def cropStep (acc : DocumentState × Int × Int) (entry : TraversalEntry) :
    DocumentState × Int × Int :=
  let (draft, start, endIdx) := acc
  match kvLookup draft entry.fileId with
  | none => acc
  | some file =>
    match entry.level with
    | .FILE =>
      let length : Int := file.getNumberOfTrackPoints
      let draft' :=
        if start ≥ length ∨ endIdx < 0 then kvDel draft entry.fileId
        else if start > 0 ∨ endIdx < length - 1 then
          match file.crop (max 0 start) (min (length - 1) endIdx) with
          | some f' => kvPut draft entry.fileId f'
          | none => kvDel draft entry.fileId
        else draft
      (draft', start - length, endIdx - length)
    | .TRACK =>
      let trackIndices := entry.items.map ListItem.getTrackIndex
      let draft' :=
        match file.cropSel start endIdx trackIndices none with
        | some f' => kvPut draft entry.fileId f'
        | none => kvDel draft entry.fileId
      (draft', start, endIdx)
    | .SEGMENT =>
      let trackIndices := [(entry.items.headD .root).getTrackIndex]
      let segmentIndices := entry.items.map ListItem.getSegmentIndex
      let draft' :=
        match file.cropSel start endIdx trackIndices (some segmentIndices) with
        | some f' => kvPut draft entry.fileId f'
        | none => kvDel draft entry.fileId
      (draft', start, endIdx)
    | _ => acc

/-- `dbUtils.cropSelection` (early return on an empty selection). -/
def cropSelection (start endIdx : Int) (trav : Traversal) (s : UndoRedoState) : UndoRedoState :=
  if trav.isEmpty then s
  else applyGlobal (fun draft => (trav.foldl cropStep (draft, start, endIdx)).1) s

/-- `dbUtils.cleanSelection` (early return on an empty selection). -/
def cleanSelection (bounds : Coordinates × Coordinates) (inside : Bool)
    (deleteTrackPoints deleteWaypoints : Bool) (trav : Traversal)
    (s : UndoRedoState) : UndoRedoState :=
  if trav.isEmpty then s
  else applyGlobal (fun draft =>
    trav.foldl (fun d entry =>
      match kvLookup d entry.fileId with
      | none => d
      | some file =>
        let file' :=
          match entry.level with
          | .FILE => file.clean bounds inside deleteTrackPoints deleteWaypoints
          | .TRACK =>
            file.clean bounds inside deleteTrackPoints deleteWaypoints
              (some (entry.items.map ListItem.getTrackIndex))
          | .SEGMENT =>
            file.clean bounds inside deleteTrackPoints deleteWaypoints
              (some [(entry.items.headD .root).getTrackIndex])
              (some (entry.items.map ListItem.getSegmentIndex))
          | .WAYPOINTS => file.clean bounds inside false deleteWaypoints
          | .WAYPOINT =>
            file.clean bounds inside false deleteWaypoints (some []) (some [])
              (some (entry.items.map ListItem.getWaypointIndex))
          | _ => file
        kvPut d entry.fileId file') draft) s

/-- `dbUtils.reduce` (early return on an empty reduction map). -/
def reduceSelection (itemsAndPoints : List (ListItem × List TrackPoint)) (trav : Traversal)
    (s : UndoRedoState) : UndoRedoState :=
  if itemsAndPoints.isEmpty then s
  else applyGlobal (fun draft =>
    trav.foldl (fun d entry =>
      match kvLookup d entry.fileId with
      | none => d
      | some file =>
        let file' := entry.items.foldl (fun f item =>
          match item with
          | .segment _ tk sg =>
            match (itemsAndPoints.find? (fun p => p.1 == item)).map Prod.snd with
            | some points =>
              let len := (((f.trk.get? tk).map (fun t => t.trkseg.get? sg)).getD none).elim 0
                (fun seg => seg.trkpt.length)
              f.replaceTrackPoints tk sg 0 ((len : Int) - 1) points
            | none => f
          | _ => f) file
        kvPut d entry.fileId file') draft) s

/-- `dbUtils.setStyleToSelection` (early return on an empty selection). -/
def setStyleToSelection (style : Nat) (trav : Traversal) (s : UndoRedoState) : UndoRedoState :=
  if trav.isEmpty then s
  else applyGlobal (fun draft =>
    trav.foldl (fun d entry =>
      match kvLookup d entry.fileId with
      | none => d
      | some file =>
        match entry.level with
        | .FILE => kvPut d entry.fileId (file.setStyle style)
        | .TRACK =>
          if entry.items.length = file.trk.length then
            kvPut d entry.fileId (file.setStyle style)
          else
            kvPut d entry.fileId (entry.items.foldl (fun f item =>
              { f with trk := (listUpdateAt f.trk item.getTrackIndex
                  (fun t => t.setStyle style)) }) file)
        | _ => d) draft) s

/-- `dbUtils.setHiddenToSelection` (early return on an empty selection). -/
def setHiddenToSelection (hidden : Bool) (trav : Traversal) (s : UndoRedoState) : UndoRedoState :=
  if trav.isEmpty then s
  else applyGlobal (fun draft =>
    trav.foldl (fun d entry =>
      match kvLookup d entry.fileId with
      | none => d
      | some file =>
        let file' :=
          match entry.level with
          | .FILE => file.setHidden hidden
          | .TRACK => file.setHidden hidden (some (entry.items.map ListItem.getTrackIndex))
          | .SEGMENT =>
            file.setHidden hidden (some [(entry.items.headD .root).getTrackIndex])
              (some (entry.items.map ListItem.getSegmentIndex))
          | .WAYPOINTS => file.setHiddenWaypoints hidden
          | .WAYPOINT =>
            file.setHiddenWaypoints hidden (some (entry.items.map ListItem.getWaypointIndex))
          | _ => file
        kvPut d entry.fileId file') draft) s

/-- `dbUtils.deleteSelection` (early return on an empty selection). -/
def deleteSelection (trav : Traversal) (s : UndoRedoState) : UndoRedoState :=
  if trav.isEmpty then s
  else applyGlobal (fun draft =>
    trav.foldl (fun d entry =>
      match entry.level with
      | .FILE => kvDel d entry.fileId
      | _ =>
        match kvLookup d entry.fileId with
        | none => d
        | some file =>
          let file' :=
            match entry.level with
            | .TRACK =>
              entry.items.foldl (fun f item =>
                f.replaceTracks item.getTrackIndex item.getTrackIndex []) file
            | .SEGMENT =>
              entry.items.foldl (fun f item =>
                f.replaceTrackSegments item.getTrackIndex item.getSegmentIndex
                  item.getSegmentIndex []) file
            | .WAYPOINTS => file.replaceWaypoints 0 ((file.wpt.length : Int) - 1) []
            | .WAYPOINT =>
              entry.items.foldl (fun f item =>
                f.replaceWaypoints item.getWaypointIndex item.getWaypointIndex []) file
            | _ => file
          kvPut d entry.fileId file') draft) s

/-- `dbUtils.deleteSelectedFiles` (early return on an empty selection). -/
def deleteSelectedFiles (trav : Traversal) (s : UndoRedoState) : UndoRedoState :=
  if trav.isEmpty then s
  else applyGlobal (fun draft => trav.foldl (fun d entry => kvDel d entry.fileId) draft) s

/-- `dbUtils.deleteAllFiles` (no selection guard — clears the whole map). -/
def deleteAllFiles (s : UndoRedoState) : UndoRedoState :=
  applyGlobal (fun _ => []) s

/-! ### Merge -/

/-- Accumulator of `mergeSelection`'s traversal loop. -/
structure MergeAcc where
  draft : DocumentState
  first : Bool
  target : ListItem
  targetFile : Option FileId
  toMergeTrk : List Track
  toMergeTrkseg : List TrackSegment
  toMergeWpt : List Waypoint
  deriving DecidableEq, Repr

/-- One item of a track-level merge entry (`items.forEach` body, lines
566-576): collect the original track's segments by prepending, splice the
track out of the draft, except for the last item (`index === items.length
- 1`), whose segment list is emptied and which becomes the target. -/
def mergeTrackStep (originalFile : GPXFile) (n : Nat)
    (acc : GPXFile × ListItem × List TrackSegment) (p : Nat × ListItem) :
    GPXFile × ListItem × List TrackSegment :=
  let (curFile, curTarget, curSegs) := acc
  let tk : Nat := p.2.getTrackIndex
  let segs := ((originalFile.trk.get? tk).map Track.trkseg).getD []
  let curSegs := segs ++ curSegs
  if p.1 = n - 1 then
    ({ curFile with trk := (listUpdateAt curFile.trk tk (fun t => { t with trkseg := [] })) },
      p.2, curSegs)
  else
    ({ curFile with trk := curFile.trk.eraseIdx tk }, curTarget, curSegs)

/-- State carried across the items of one track-level merge entry:
the draft file being edited, the current target item, and the collected
segments (prepended, so the reversed traversal restores user order). -/
def mergeTrackItems (originalFile : GPXFile) (items : List ListItem)
    (file : GPXFile) (target : ListItem) (toMergeTrkseg : List TrackSegment) :
    GPXFile × ListItem × List TrackSegment :=
  items.enum.foldl (mergeTrackStep originalFile items.length) (file, target, toMergeTrkseg)

/-- One item of a segment-level merge entry (`items.forEach` body, lines
577-586): the last item becomes the target; every selected segment (the
target's included) is collected by prepending and spliced out. -/
def mergeSegmentStep (originalFile : GPXFile) (n : Nat)
    (acc : GPXFile × ListItem × List TrackSegment) (p : Nat × ListItem) :
    GPXFile × ListItem × List TrackSegment :=
  let (curFile, curTarget, curSegs) := acc
  let tk : Nat := p.2.getTrackIndex
  let sg : Nat := p.2.getSegmentIndex
  let curTarget := if p.1 = n - 1 then p.2 else curTarget
  let curSegs := ((((originalFile.trk.get? tk).map
    (fun t => t.trkseg.get? sg)).getD none).toList) ++ curSegs
  ({ curFile with trk := (listUpdateAt curFile.trk tk
      (fun t => { t with trkseg := t.trkseg.eraseIdx sg })) }, curTarget, curSegs)

/-- State carried across the items of one segment-level merge entry; every
selected segment (the target's included) is spliced out, and the target is
the last-visited item. -/
def mergeSegmentItems (originalFile : GPXFile) (items : List ListItem)
    (file : GPXFile) (target : ListItem) (toMergeTrkseg : List TrackSegment) :
    GPXFile × ListItem × List TrackSegment :=
  items.enum.foldl (mergeSegmentStep originalFile items.length) (file, target, toMergeTrkseg)

/-- One `mergeSelection` traversal step. -/
def mergeStep (orig : DocumentState) (acc : MergeAcc) (entry : TraversalEntry) : MergeAcc :=
  match kvLookup acc.draft entry.fileId, kvLookup orig entry.fileId with
  | some file, some originalFile =>
    (match entry.level with
      | .FILE =>
        let acc := { acc with
          toMergeTrk := acc.toMergeTrk ++ originalFile.trk,
          toMergeWpt := acc.toMergeWpt ++ originalFile.wpt }
        if acc.first then
          { acc with
              target := entry.items.headD ListItem.root
              targetFile := some entry.fileId
              first := false }
        else
          { acc with draft := kvDel acc.draft entry.fileId, first := false }
      | .TRACK =>
        let res := mergeTrackItems originalFile entry.items file acc.target acc.toMergeTrkseg
        { acc with
            draft := kvPut acc.draft entry.fileId res.1
            target := res.2.1
            toMergeTrkseg := res.2.2
            targetFile := some entry.fileId
            first := false }
      | .SEGMENT =>
        let res := mergeSegmentItems originalFile entry.items file acc.target acc.toMergeTrkseg
        { acc with
            draft := kvPut acc.draft entry.fileId res.1
            target := res.2.1
            toMergeTrkseg := res.2.2
            targetFile := some entry.fileId
            first := false }
      | _ => { acc with targetFile := some entry.fileId, first := false })
  | _, _ => acc

/-- Append points to a segment through `replaceTrackPoints(len, len, pts,
speed, startTime)`; the synthetic re-timing (floating-point speed/time
arithmetic of the gpx library, not under `src/`) is abstracted as the
`retime` parameter. -/
def appendRetimed (retime : List TrackPoint → List TrackPoint)
    (s : TrackSegment) (pts : List TrackPoint) : TrackSegment :=
  { s with trkpt := replaceRange s.trkpt s.trkpt.length s.trkpt.length (retime pts) }

/-- The trace-blending block of `mergeSelection`: collapse the collected
tracks (resp. segments) into a single re-timed segment. -/
def mergeTracesBlend (retime : List TrackPoint → List TrackPoint) (acc : MergeAcc) : MergeAcc :=
  let toMergeTrk :=
    match acc.toMergeTrk with
    | t0 :: _ =>
      if t0.trkseg.isEmpty then acc.toMergeTrk
      else
        let s0 := (acc.toMergeTrk.flatMap Track.trkseg).foldl
          (fun sAcc seg => appendRetimed retime sAcc seg.trkpt) {}
        [{ t0 with trkseg := [s0] }]
    | [] => []
  let toMergeTrkseg :=
    if acc.toMergeTrkseg.isEmpty then acc.toMergeTrkseg
    else
      [acc.toMergeTrkseg.foldl (fun sAcc seg => appendRetimed retime sAcc seg.trkpt) {}]
  { acc with toMergeTrk := toMergeTrk, toMergeTrkseg := toMergeTrkseg }

/-- Write the merged data into the target item. -/
def mergeFinish (acc : MergeAcc) : DocumentState :=
  match acc.targetFile with
  | none => acc.draft
  | some fid =>
    match kvLookup acc.draft fid with
    | none => acc.draft
    | some tf =>
      match acc.target with
      | .file _ =>
        let tf := tf.replaceTracks 0 ((tf.trk.length : Int) - 1) acc.toMergeTrk
        let tf := tf.replaceWaypoints 0 ((tf.wpt.length : Int) - 1) acc.toMergeWpt
        kvPut acc.draft fid tf
      | .track _ tk =>
        kvPut acc.draft fid (tf.replaceTrackSegments tk 0 (-1) acc.toMergeTrkseg)
      | .segment _ tk sg =>
        kvPut acc.draft fid (tf.replaceTrackSegments tk sg ((sg : Int) - 1) acc.toMergeTrkseg)
      | _ => acc.draft

/-- The initial accumulator of the `mergeSelection` traversal. -/
def mergeInit (draft : DocumentState) : MergeAcc :=
  { draft := draft, first := true, target := .root, targetFile := none,
    toMergeTrk := [], toMergeTrkseg := [], toMergeWpt := [] }

/-- `dbUtils.mergeSelection` (no empty-selection guard in the source).
`retime` abstracts the speed/start-time re-timing computed from the
external statistics store when `mergeTraces` is set. -/
def mergeSelection (retime : List TrackPoint → List TrackPoint) (mergeTraces : Bool)
    (trav : Traversal) (s : UndoRedoState) : UndoRedoState :=
  applyGlobal (fun draft =>
    let acc := trav.foldl (mergeStep draft) (mergeInit draft)
    let acc := if mergeTraces then mergeTracesBlend retime acc else acc
    mergeFinish acc) s

/-! ### Extract -/

/-- Per-waypoint nearest-container record of `extractSelection`
(`{wptIndex, index, distance}`); `distance: Number.MAX_VALUE` is modelled
as `none`, the top element (every computed distance is below it). -/
structure WptClosest where
  wptIndex : Nat
  index : List Nat
  distance : Option Nat
  deriving DecidableEq, Repr

/-- One comparison of the nearest-container scan: strictly closer replaces
the list, an exact tie appends the container index. -/
def updateClosest (c : WptClosest) (i : Nat) (d : Nat) : WptClosest :=
  match c.distance with
  | none => { c with index := [i], distance := some d }
  | some m =>
    if d < m then { c with index := [i], distance := some d }
    else if d = m then { c with index := c.index ++ [i] } else c

/-- Scan all points (labelled with their container index) for one waypoint
(initial record `{index: [0], distance: MAX_VALUE}`). -/
def closestFor (dist : Coordinates → Coordinates → Nat)
    (labeled : List (Nat × TrackPoint)) (wptIndex : Nat) (w : Waypoint) : WptClosest :=
  labeled.foldl (fun c ip => updateClosest c ip.1 (dist ip.2.coord w.coord))
    { wptIndex := wptIndex, index := [0], distance := none }

/-- All points of a file labelled by track index, in iteration order. -/
def GPXFile.labeledPointsByTrack (f : GPXFile) : List (Nat × TrackPoint) :=
  f.trk.enum.flatMap (fun ti =>
    (ti.2.getSegments.flatMap TrackSegment.trkpt).map (fun p => (ti.1, p)))

/-- Points of the single track labelled by segment index. -/
def Track.labeledPointsBySegment (t : Track) : List (Nat × TrackPoint) :=
  t.trkseg.enum.flatMap (fun si => si.2.trkpt.map (fun p => (si.1, p)))

def extractClosestByTrack (dist : Coordinates → Coordinates → Nat) (f : GPXFile) :
    List WptClosest :=
  f.wpt.enum.map (fun wi => closestFor dist f.labeledPointsByTrack wi.1 wi.2)

def extractClosestBySegment (dist : Coordinates → Coordinates → Nat) (t : Track)
    (wpts : List Waypoint) : List WptClosest :=
  wpts.enum.map (fun wi => closestFor dist t.labeledPointsBySegment wi.1 wi.2)

/-- Split one track into one single-segment track per segment, renaming
`name` to `name (i+1)` when present. -/
def trackPerSegment (track : Track) : List Track :=
  track.trkseg.enum.map (fun si =>
    let t := track.replaceSegments 0 ((track.trkseg.length : Int) - 1) [si.2]
    match track.name with
    | some nm => { t with name := some (nm ++ " (" ++ toString (si.1 + 1) ++ ")") }
    | none => t)

/-- The per-track extracted documents of a multi-track file: document `i`
holds track `i` (split per segment) and every waypoint whose nearest point
lies in track `i` (ties included). -/
def extractTrackFiles (dist : Coordinates → Coordinates → Nat) (f : GPXFile) : List GPXFile :=
  let closest := extractClosestByTrack dist f
  f.trk.enum.map (fun ti =>
    let newFile := f.replaceTracks 0 ((f.trk.length : Int) - 1) (trackPerSegment ti.2)
    let newFile := newFile.replaceWaypoints 0 ((f.wpt.length : Int) - 1)
      ((closest.filter (fun c => c.index.contains ti.1)).map
        (fun c => (f.wpt.get? c.wptIndex).getD { coord := { lat := 0, lon := 0 } }))
    { newFile with name := ti.2.name.getD (f.name ++ " (" ++ toString (ti.1 + 1) ++ ")") })

/-- The per-segment extracted documents of a single-track file. -/
def extractSegmentFiles (dist : Coordinates → Coordinates → Nat) (f : GPXFile) (t0 : Track) :
    List GPXFile :=
  let closest := extractClosestBySegment dist t0 f.wpt
  t0.trkseg.enum.map (fun si =>
    let newFile := f.replaceTrackSegments 0 0 ((t0.trkseg.length : Int) - 1) [si.2]
    let newFile := newFile.replaceWaypoints 0 ((f.wpt.length : Int) - 1)
      ((closest.filter (fun c => c.index.contains si.1)).map
        (fun c => (f.wpt.get? c.wptIndex).getD { coord := { lat := 0, lon := 0 } }))
    { newFile with name := (t0.name.getD f.name) ++ " (" ++ toString (si.1 + 1) ++ ")" })

/-- `dbUtils.extractSelection` (no empty-selection guard in the source). -/
def extractSelection (dist : Coordinates → Coordinates → Nat) (trav : Traversal)
    (s : UndoRedoState) : UndoRedoState :=
  applyGlobal (fun draft =>
    trav.foldl (fun d entry =>
      match entry.level with
      | .FILE =>
        match getFile s.fileState entry.fileId with
        | none => d
        | some file =>
          let d :=
            if file.trk.length > 1 then
              let fileIds := freshIds s.fileState file.trk.length
              (List.zip fileIds (extractTrackFiles dist file)).foldl
                (fun d p => kvPut d p.1 p.2) d
            else
              match file.trk with
              | [t0] =>
                let fileIds := freshIds s.fileState t0.trkseg.length
                (List.zip fileIds (extractSegmentFiles dist file t0)).foldl
                  (fun d p => kvPut d p.1 p.2) d
              | _ => d
          kvDel d entry.fileId
      | .TRACK =>
        match kvLookup d entry.fileId with
        | none => d
        | some file =>
          kvPut d entry.fileId (entry.items.foldl (fun f item =>
            let tk : Nat := item.getTrackIndex
            match f.trk.get? tk with
            | some track => f.replaceTracks tk (tk : Int) (trackPerSegment track)
            | none => f) file)
      | _ => d) draft) s

/-! ### Split -/

inductive SplitType where
  | FILES
  | TRACKS
  | SEGMENTS
  deriving DecidableEq, Repr

/-- One iteration of the `dbUtils.split` closest-point scan:
`minDistance` is `Number.MAX_VALUE` (modelled `none`, above every computed
distance) or the running minimum; only a strictly smaller distance updates
the pair — so ties keep the first-encountered index. -/
def splitFoldStep (dist : Coordinates → Coordinates → Nat) (coordinates : Coordinates)
    (acc : Nat × Option Nat) (ip : Nat × TrackPoint) : Nat × Option Nat :=
  let d := dist ip.2.coord coordinates
  match acc.2 with
  | none => (ip.1, some d)
  | some m => if d < m then (ip.1, some d) else acc

/-- The closest-point scan of `dbUtils.split` over the chosen segment. -/
def splitClosestIndex (dist : Coordinates → Coordinates → Nat) (seg : TrackSegment)
    (coordinates : Coordinates) : Nat :=
  (seg.trkpt.enum.foldl (splitFoldStep dist coordinates) (0, none)).1

/-- Points preceding the chosen segment that contribute to the absolute
split index (all earlier tracks for file splits, earlier segments of the
same track always). -/
def splitOffset (splitType : SplitType) (f : GPXFile) (trackIndex segmentIndex : Nat) : Nat :=
  f.trk.enum.foldl (fun a ti =>
    ti.2.trkseg.enum.foldl (fun b si =>
      if (ti.1 < trackIndex ∧ splitType = .FILES) ∨
          (ti.1 = trackIndex ∧ si.1 < segmentIndex) then b + si.2.trkpt.length else b) a) 0

/-- `dbUtils.split`: locate the closest point of the chosen segment and cut
the file, track, or segment there according to the split mode. -/
def split (dist : Coordinates → Coordinates → Nat) (splitType : SplitType) (fileId : FileId)
    (trackIndex segmentIndex : Nat) (coordinates : Coordinates)
    (s : UndoRedoState) : UndoRedoState :=
  applyGlobal (fun draft =>
    match getFile s.fileState fileId with
    | none => draft
    | some file =>
      match (file.trk.get? trackIndex).bind (fun t => t.trkseg.get? segmentIndex) with
      | none => draft
      | some segment =>
        let minIndex := splitClosestIndex dist segment coordinates
        let absoluteIndex : Int := minIndex + splitOffset splitType file trackIndex segmentIndex
        match splitType with
        | .FILES =>
          match kvLookup draft fileId with
          | none => draft
          | some newFile =>
            let draft :=
              match newFile.crop 0 absoluteIndex with
              | some f' => kvPut draft fileId f'
              | none => kvDel draft fileId
            match file.crop absoluteIndex ((file.getNumberOfTrackPoints : Int) - 1) with
            | some f2 => kvPut draft ((freshIds s.fileState 1).headD 0) f2
            | none => draft
        | .TRACKS =>
          match kvLookup draft fileId with
          | none => draft
          | some newFile =>
            match file.trk.get? trackIndex with
            | none => draft
            | some track =>
              let startT := track.crop 0 absoluteIndex
              let endT := track.crop absoluteIndex ((track.getNumberOfTrackPoints : Int) - 1)
              kvPut draft fileId
                (newFile.replaceTracks trackIndex (trackIndex : Int) [startT, endT])
        | .SEGMENTS =>
          match kvLookup draft fileId with
          | none => draft
          | some newFile =>
            let startS := segment.crop 0 (minIndex : Int)
            let endS := segment.crop (minIndex : Int) ((segment.trkpt.length : Int) - 1)
            kvPut draft fileId
              (newFile.replaceTrackSegments trackIndex segmentIndex segmentIndex
                [startS, endS])) s

/-! ## Id generation and the session model (`getFileIds`) -/

def gpxId (i : Nat) : String := "gpx-" ++ toString i

/-- The first `n` indices `i` (in increasing order) whose id `gpx-{i}` is
not used by a live file observer; `n + live.length` candidates always
suffice for the source's unbounded upward scan. -/
def freshIdIndices (live : List String) (n : Nat) : List Nat :=
  ((List.range (n + live.length)).filter (fun i => !live.contains (gpxId i))).take n

/-- `getFileIds(n)`: the first `n` ids `gpx-{i}` (by increasing `i`) not
present among the live file observers. -/
def getFileIds (live : List String) (n : Nat) : List String :=
  (freshIdIndices live n).map gpxId

/-- A session step: adding a new file assigns it `getFileIds(1)[0]`;
deleting all files frees every id. -/
inductive SessionOp where
  | addNew
  | deleteAll
  deriving DecidableEq, Repr

def sessionStep : List String → SessionOp → List String × List String
  | live, .addNew =>
    let ids := getFileIds live 1
    (live ++ ids, ids)
  | _, .deleteAll => ([], [])

/-- Every id handed out by `getFileIds` over a session, in order. -/
def sessionAssignedIds (ops : List SessionOp) : List String :=
  (ops.foldl (fun acc op =>
    let res := sessionStep acc.1 op
    (res.1, acc.2 ++ res.2)) (([] : List String), ([] : List String))).2

/-! ## Statistics tree -/

/-- Modelled from the spec (§3/§4.5, gpx library body not under `src/`):
aggregate metrics with an associative-commutative merge. -/
structure GPXStatistics where
  distance : Nat := 0
  duration : Nat := 0
  points : Nat := 0
  deriving DecidableEq, Repr

/-- `new GPXStatistics()`. -/
def GPXStatistics.empty : GPXStatistics := {}

def GPXStatistics.mergeWith (a b : GPXStatistics) : GPXStatistics :=
  { distance := a.distance + b.distance
    duration := a.duration + b.duration
    points := a.points + b.points }

/-- The recursive statistics cache: each node maps child indices to either
a subtree or a leaf `GPXStatistics` (the source class's `statistics`
object, keyed by number). -/
inductive GPXStatisticsTree where
  | mk (level : ListLevel) (statistics : List (Nat × (GPXStatisticsTree ⊕ GPXStatistics)))

/-- `item.getIdAtLevel(level)` returns a child index, the literal
`'waypoints'` (modelled `Sum.inr ()`), or `undefined` (`none`); the
`ListItem` is abstracted by this function, the only part of it the
statistics walk reads. -/
abbrev ItemSelector := ListLevel → Option (Nat ⊕ Unit)

mutual

/-- `GPXStatisticsTree.getStatisticsFor`: an absent or `'waypoints'` id
merges all children; a present id merges the one child; an id with no
matching child yields the empty statistics. -/
def GPXStatisticsTree.getStatisticsFor : GPXStatisticsTree → ItemSelector → GPXStatistics
  | .mk level stats, item =>
    match item level with
    | some (.inl id) => GPXStatisticsTree.findChildStats stats id item
    | _ => GPXStatisticsTree.mergeChildren stats item GPXStatistics.empty
termination_by t _ => sizeOf t

/-- The `this.statistics[id]` lookup followed by the `instanceof` dispatch;
a missing child contributes nothing. -/
def GPXStatisticsTree.findChildStats :
    List (Nat × (GPXStatisticsTree ⊕ GPXStatistics)) → Nat → ItemSelector → GPXStatistics
  | [], _, _ => GPXStatistics.empty
  | (k, .inl t) :: rest, id, item =>
    if k = id then GPXStatistics.empty.mergeWith (t.getStatisticsFor item)
    else GPXStatisticsTree.findChildStats rest id item
  | (k, .inr st) :: rest, id, item =>
    if k = id then GPXStatistics.empty.mergeWith st
    else GPXStatisticsTree.findChildStats rest id item
termination_by l _ _ => sizeOf l

/-- The `Object.keys(...).forEach` merge over every child. -/
def GPXStatisticsTree.mergeChildren :
    List (Nat × (GPXStatisticsTree ⊕ GPXStatistics)) → ItemSelector → GPXStatistics →
      GPXStatistics
  | [], _, acc => acc
  | (_, .inl t) :: rest, item, acc =>
    GPXStatisticsTree.mergeChildren rest item (acc.mergeWith (t.getStatisticsFor item))
  | (_, .inr st) :: rest, item, acc =>
    GPXStatisticsTree.mergeChildren rest item (acc.mergeWith st)
termination_by l _ _ => sizeOf l

end

/-- Distance of the segment's `i`-th point to the target coordinates
(out-of-range indices read a dummy point; theorems only use `i` in range). -/
def segPointDist (dist : Coordinates → Coordinates → Nat) (seg : TrackSegment)
    (coordinates : Coordinates) (i : Nat) : Nat :=
  dist (((seg.trkpt.get? i).getD { coord := { lat := 0, lon := 0 } }).coord) coordinates

/-- A concrete geometry instance: squared Euclidean distance on the
integer coordinates. -/
def distSq (a b : Coordinates) : Nat :=
  ((a.lat - b.lat) ^ 2 + (a.lon - b.lon) ^ 2).toNat

/-! ## Concrete sample values (used to instantiate theorems with hypotheses) -/

def samplePointA : TrackPoint := { coord := { lat := 0, lon := 0 } }
def samplePointB : TrackPoint := { coord := { lat := 0, lon := 1 } }
def samplePointC : TrackPoint := { coord := { lat := 1, lon := 0 } }

def sampleFileA : GPXFile :=
  { name := "a", trk := [{ trkseg := [{ trkpt := [samplePointA, samplePointB] }] }] }

def sampleFileB : GPXFile :=
  { name := "b", trk := [{ trkseg := [{ trkpt := [samplePointC] }] }] }

def sampleLogState : UndoRedoState :=
  { fileState := [(0, sampleFileA)]
    patches := [(0, ⟨[.put 0 sampleFileA], [.remove 0], 0⟩)]
    patchIndex := 0 }

/-- Three points whose first two are equidistant from `sampleTarget`. -/
def sampleSegment : TrackSegment :=
  { trkpt := [{ coord := { lat := 0, lon := 0 } }, { coord := { lat := 0, lon := 2 } },
      { coord := { lat := 0, lon := 3 } }] }

def sampleTarget : Coordinates := { lat := 0, lon := 1 }

/-- A waypoint exactly equidistant (squared distance 1) from the single
point of each track of `sampleExtractFile`. -/
def sampleWpt : Waypoint := { coord := { lat := 0, lon := 1 } }

/-- Two single-segment tracks whose points are both at squared distance 1
from `sampleWpt`. -/
def sampleExtractFile : GPXFile :=
  { name := "x"
    trk := [{ trkseg := [{ trkpt := [{ coord := { lat := 0, lon := 0 } }] }] },
            { trkseg := [{ trkpt := [{ coord := { lat := 0, lon := 2 } }] }] }]
    wpt := [sampleWpt] }

/-- Two distinct one-track documents, for whole-file merges. -/
def sampleMergeState : UndoRedoState :=
  { fileState := [(0, sampleFileA), (1, sampleFileB)], patches := [], patchIndex := -1 }

/-- One track with two one-point segments, for segment-level merges. -/
def sampleSegFile : GPXFile :=
  { name := "s", trk := [{ trkseg := [{ trkpt := [samplePointA] }, { trkpt := [samplePointB] }] }] }

def sampleExtractState : UndoRedoState :=
  { fileState := [(0, sampleExtractFile)], patches := [], patchIndex := -1 }

def sampleSegState : UndoRedoState :=
  { fileState := [(0, sampleSegFile)], patches := [], patchIndex := -1 }

/-- Three one-segment tracks, for a three-item track-level merge. -/
def sampleThreeTrackFile : GPXFile :=
  { name := "t3"
    trk := [{ trkseg := [{ trkpt := [samplePointA] }] },
            { trkseg := [{ trkpt := [samplePointB] }] },
            { trkseg := [{ trkpt := [samplePointC] }] }] }

def sampleThreeTrackState : UndoRedoState :=
  { fileState := [(0, sampleThreeTrackFile)], patches := [], patchIndex := -1 }

/-- A track with three one-point segments, for a three-item segment-level
merge. -/
def sampleSeg3Track : Track :=
  { trkseg := [{ trkpt := [samplePointA] }, { trkpt := [samplePointB] },
      { trkpt := [samplePointC] }] }

def sampleSeg3File : GPXFile := { name := "s3", trk := [sampleSeg3Track] }

def sampleSeg3State : UndoRedoState :=
  { fileState := [(0, sampleSeg3File)], patches := [], patchIndex := -1 }

/-! ### Map lemmas -/

theorem kvWF_nil [LT κ] : KVWF ([] : KVList κ α) := List.chain'_nil

theorem kvWF_cons [LT κ] {k : κ} {v : α} {t : KVList κ α} (h : KVWF ((k, v) :: t)) : KVWF t := by
  cases t with
  | nil => exact List.chain'_nil
  | cons x xs => exact (List.chain'_cons.mp h).2

theorem kvWF_head_lt [LT κ] {k : κ} {v : α} {x : κ × α} {t : KVList κ α}
    (h : KVWF ((k, v) :: x :: t)) : k < x.1 :=
  (List.chain'_cons.mp h).1

theorem kvLookup_some_mem [DecidableEq κ] {l : KVList κ α} {k : κ} {v : α}
    (h : kvLookup l k = some v) : (k, v) ∈ l := by
  induction l with
  | nil => simp [kvLookup] at h
  | cons x t ih =>
    obtain ⟨k', v'⟩ := x
    by_cases hk : k = k'
    · subst hk
      simp [kvLookup] at h
      simp [h]
    · simp [kvLookup, hk] at h
      exact List.mem_cons_of_mem _ (ih h)

theorem kvLookup_eq_none [DecidableEq κ] {l : KVList κ α} {k : κ}
    (h : ∀ v, (k, v) ∉ l) : kvLookup l k = none := by
  induction l with
  | nil => rfl
  | cons x t ih =>
    obtain ⟨k', v'⟩ := x
    by_cases hk : k = k'
    · subst hk
      exact absurd (List.mem_cons_self _ _) (h v')
    · simp only [kvLookup, if_neg hk]
      exact ih fun v hv => h v (List.mem_cons_of_mem _ hv)

/-- In a sorted store, every key of the tail is greater than the head key. -/
theorem kvWF_lt_of_mem [Preorder κ] {k : κ} {v : α} {t : KVList κ α}
    (h : KVWF ((k, v) :: t)) {x : κ × α} (hx : x ∈ t) : k < x.1 := by
  induction t generalizing k v with
  | nil => cases hx
  | cons y ys ih =>
    rcases List.mem_cons.mp hx with hx | hx
    · rw [hx]; exact kvWF_head_lt h
    · exact lt_trans (kvWF_head_lt h) (ih (kvWF_cons h) hx)

theorem kvLookup_head_tail_none [LinearOrder κ] {k : κ} {v : α} {t : KVList κ α}
    (h : KVWF ((k, v) :: t)) : kvLookup t k = none :=
  kvLookup_eq_none fun v' hv' => absurd (kvWF_lt_of_mem h hv') (lt_irrefl k)

/-- Extensionality: two sorted stores with the same lookups are equal. -/
theorem kvExt [LinearOrder κ] {s t : KVList κ α} (hs : KVWF s) (ht : KVWF t)
    (h : ∀ k, kvLookup s k = kvLookup t k) : s = t := by
  induction s generalizing t with
  | nil =>
    cases t with
    | nil => rfl
    | cons y ys =>
      obtain ⟨k, v⟩ := y
      have := h k
      simp [kvLookup] at this
  | cons x xs ih =>
    obtain ⟨k, v⟩ := x
    cases t with
    | nil =>
      have := h k
      simp [kvLookup] at this
    | cons y ys =>
      obtain ⟨k', v'⟩ := y
      rcases lt_trichotomy k k' with hlt | heq | hgt
      · exfalso
        have hv : kvLookup ((k, v) :: xs) k = some v := by simp [kvLookup]
        have hlk : kvLookup ((k', v') :: ys) k = some v := (h k).symm.trans hv
        have hmem := kvLookup_some_mem hlk
        rcases List.mem_cons.mp hmem with hm | hm
        · have : k = k' := congrArg Prod.fst hm
          exact absurd this (ne_of_lt hlt)
        · have : k' < k := kvWF_lt_of_mem ht hm
          exact absurd hlt (not_lt_of_gt this)
      · subst heq
        have hv : kvLookup ((k, v) :: xs) k = some v := by simp [kvLookup]
        have hv' : kvLookup ((k, v') :: ys) k = some v' := by simp [kvLookup]
        have hvv : v = v' := by
          have := (hv.symm.trans (h k)).trans hv'
          exact Option.some.inj this
        subst hvv
        have htail : ∀ m, kvLookup xs m = kvLookup ys m := by
          intro m
          by_cases hm : m = k
          · subst hm
            rw [kvLookup_head_tail_none hs, kvLookup_head_tail_none ht]
          · have := h m
            simpa [kvLookup, hm] using this
        rw [ih (kvWF_cons hs) (kvWF_cons ht) htail]
      · exfalso
        have hv' : kvLookup ((k', v') :: ys) k' = some v' := by simp [kvLookup]
        have hlk : kvLookup ((k, v) :: xs) k' = some v' := (h k').trans hv'
        have hmem := kvLookup_some_mem hlk
        rcases List.mem_cons.mp hmem with hm | hm
        · have : k' = k := congrArg Prod.fst hm
          exact absurd this (ne_of_lt hgt)
        · have : k < k' := kvWF_lt_of_mem hs hm
          exact absurd hgt (not_lt_of_gt this)

theorem kvLookup_put_self [LinearOrder κ] (l : KVList κ α) (k : κ) (v : α) :
    kvLookup (kvPut l k v) k = some v := by
  induction l with
  | nil => simp [kvPut, kvLookup]
  | cons x t ih =>
    obtain ⟨k', v'⟩ := x
    by_cases h1 : k < k'
    · simp [kvPut, h1, kvLookup]
    · by_cases h2 : k = k'
      · simp [kvPut, h1, h2, kvLookup]
      · simp only [kvPut, if_neg h1, if_neg h2, kvLookup]
        exact ih

theorem kvLookup_put_ne [LinearOrder κ] (l : KVList κ α) (k k' : κ) (v : α) (h : k' ≠ k) :
    kvLookup (kvPut l k v) k' = kvLookup l k' := by
  induction l with
  | nil => simp [kvPut, kvLookup, h]
  | cons x t ih =>
    obtain ⟨k0, v0⟩ := x
    by_cases h1 : k < k0
    · simp only [kvPut, if_pos h1, kvLookup, if_neg h]
    · by_cases h2 : k = k0
      · subst h2
        simp only [kvPut, if_neg h1, if_pos rfl, kvLookup, if_neg h]
      · simp only [kvPut, if_neg h1, if_neg h2, kvLookup]
        by_cases h3 : k' = k0
        · simp [h3]
        · simp only [if_neg h3]
          exact ih

theorem kvLookup_del_self [LinearOrder κ] {l : KVList κ α} (hl : KVWF l) (k : κ) :
    kvLookup (kvDel l k) k = none := by
  induction l with
  | nil => rfl
  | cons x t ih =>
    obtain ⟨k', v'⟩ := x
    by_cases h : k = k'
    · subst h
      simpa [kvDel] using kvLookup_head_tail_none hl
    · simp only [kvDel, if_neg h, kvLookup, if_neg h]
      exact ih (kvWF_cons hl)

theorem kvLookup_del_ne [DecidableEq κ] (l : KVList κ α) (k k' : κ) (h : k' ≠ k) :
    kvLookup (kvDel l k) k' = kvLookup l k' := by
  induction l with
  | nil => rfl
  | cons x t ih =>
    obtain ⟨k0, v0⟩ := x
    by_cases h1 : k = k0
    · subst h1
      simp [kvDel, kvLookup, if_neg h]
    · simp only [kvDel, if_neg h1, kvLookup]
      by_cases h2 : k' = k0
      · simp [h2]
      · simp only [if_neg h2]
        exact ih

theorem kvPut_mem [LinearOrder κ] {l : KVList κ α} {k : κ} {v : α} {y : κ × α}
    (hy : y ∈ kvPut l k v) : y = (k, v) ∨ y ∈ l := by
  induction l with
  | nil => simpa [kvPut] using hy
  | cons z zs ih =>
    obtain ⟨kz, vz⟩ := z
    by_cases h1 : k < kz
    · simp only [kvPut, if_pos h1] at hy
      rcases List.mem_cons.mp hy with hy | hy
      · exact Or.inl hy
      · exact Or.inr hy
    · by_cases h2 : k = kz
      · simp only [kvPut, if_neg h1, if_pos h2] at hy
        rcases List.mem_cons.mp hy with hy | hy
        · exact Or.inl hy
        · exact Or.inr (List.mem_cons_of_mem _ hy)
      · simp only [kvPut, if_neg h1, if_neg h2] at hy
        rcases List.mem_cons.mp hy with hy | hy
        · exact Or.inr (hy ▸ List.mem_cons_self _ _)
        · rcases ih hy with h | h
          · exact Or.inl h
          · exact Or.inr (List.mem_cons_of_mem _ h)

theorem kvDel_subset [DecidableEq κ] {l : KVList κ α} {k : κ} {y : κ × α}
    (hy : y ∈ kvDel l k) : y ∈ l := by
  induction l with
  | nil => cases hy
  | cons z zs ih =>
    obtain ⟨kz, vz⟩ := z
    by_cases h : k = kz
    · simp only [kvDel, if_pos h] at hy
      exact List.mem_cons_of_mem _ hy
    · simp only [kvDel, if_neg h] at hy
      rcases List.mem_cons.mp hy with hy | hy
      · exact hy ▸ List.mem_cons_self _ _
      · exact List.mem_cons_of_mem _ (ih hy)

theorem kvWF_cons_of [LT κ] {l : KVList κ α} {a : κ} {v : α}
    (h : KVWF l) (ha : ∀ y ∈ l, a < y.1) : KVWF ((a, v) :: l) := by
  cases l with
  | nil => simp [KVWF, kvKeys]
  | cons z zs => exact List.chain'_cons.mpr ⟨ha z (List.mem_cons_self _ _), h⟩

theorem kvWF_put [LinearOrder κ] {l : KVList κ α} (hl : KVWF l) (k : κ) (v : α) :
    KVWF (kvPut l k v) := by
  induction l with
  | nil => simp [kvPut, KVWF, kvKeys]
  | cons x t ih =>
    obtain ⟨k', v'⟩ := x
    by_cases h1 : k < k'
    · have : KVWF ((k, v) :: (k', v') :: t) := by
        refine List.chain'_cons.mpr ⟨h1, hl⟩
      simpa [kvPut, h1] using this
    · by_cases h2 : k = k'
      · subst h2
        have : KVWF ((k, v) :: t) := by
          cases t with
          | nil => simp [KVWF, kvKeys]
          | cons y ys => exact List.chain'_cons.mpr ⟨kvWF_head_lt hl, kvWF_cons hl⟩
        simpa [kvPut, h1] using this
      · have hwf := ih (kvWF_cons hl)
        have hgt : k' < k := by
          rcases lt_trichotomy k k' with h | h | h
          · exact absurd h h1
          · exact absurd h h2
          · exact h
        simp only [kvPut, if_neg h1, if_neg h2]
        refine kvWF_cons_of hwf ?_
        intro y hy
        rcases kvPut_mem hy with h | h
        · rw [h]; exact hgt
        · exact kvWF_lt_of_mem hl h

theorem kvWF_del [LinearOrder κ] {l : KVList κ α} (hl : KVWF l) (k : κ) :
    KVWF (kvDel l k) := by
  induction l with
  | nil => exact kvWF_nil
  | cons x t ih =>
    obtain ⟨k', v'⟩ := x
    by_cases h : k = k'
    · simpa [kvDel, h] using kvWF_cons hl
    · simp only [kvDel, if_neg h]
      exact kvWF_cons_of (ih (kvWF_cons hl)) fun y hy => kvWF_lt_of_mem hl (kvDel_subset hy)

/-! ### Patch round trip -/

theorem applyPatchOp_WF {s : DocumentState} (hs : KVWF s) (op : PatchOp) :
    KVWF (applyPatchOp s op) := by
  cases op with
  | put k v => exact kvWF_put hs k v
  | remove k => exact kvWF_del hs k

theorem applyPatches_WF {s : DocumentState} (hs : KVWF s) (ops : Patch) :
    KVWF (applyPatches s ops) := by
  induction ops generalizing s with
  | nil => exact hs
  | cons op rest ih => exact ih (applyPatchOp_WF hs op)

theorem applyPatchOp_lookup_ne {s : DocumentState} (op : PatchOp) (k : FileId)
    (h : op.key ≠ k) : kvLookup (applyPatchOp s op) k = kvLookup s k := by
  cases op with
  | put k0 v => exact kvLookup_put_ne s k0 k v (fun hk => h hk.symm)
  | remove k0 => exact kvLookup_del_ne s k0 k (fun hk => h hk.symm)

theorem applyPatches_lookup_no_key {s : DocumentState} (ops : Patch) (k : FileId)
    (h : ∀ op ∈ ops, op.key ≠ k) : kvLookup (applyPatches s ops) k = kvLookup s k := by
  induction ops generalizing s with
  | nil => rfl
  | cons op rest ih =>
    have h1 : op.key ≠ k := h op (List.mem_cons_self _ _)
    have h2 : ∀ o ∈ rest, o.key ≠ k := fun o ho => h o (List.mem_cons_of_mem _ ho)
    calc kvLookup (applyPatches (applyPatchOp s op) rest) k
        = kvLookup (applyPatchOp s op) k := ih h2
      _ = kvLookup s k := applyPatchOp_lookup_ne op k h1

/-- Effect of applying a patch whose keys are distinct, at a key owned by one op. -/
theorem applyPatches_lookup_key {s : DocumentState} (hs : KVWF s) (ops : Patch)
    (hnd : (ops.map PatchOp.key).Nodup) (op : PatchOp) (hop : op ∈ ops) (k : FileId)
    (hk : op.key = k) :
    kvLookup (applyPatches s ops) k = op.effect := by
  induction ops generalizing s with
  | nil => cases hop
  | cons o rest ih =>
    rcases List.mem_cons.mp hop with heq | hmem
    · subst heq
      have hrest : ∀ o' ∈ rest, o'.key ≠ k := by
        intro o' ho' hko'
        have : op.key ∈ rest.map PatchOp.key := by
          rw [hk, ← hko']
          exact List.mem_map_of_mem _ ho'
        exact (List.nodup_cons.mp hnd).1 this
      have hpres := applyPatches_lookup_no_key (s := applyPatchOp s op) rest k hrest
      rw [show applyPatches s (op :: rest) = applyPatches (applyPatchOp s op) rest from rfl, hpres]
      cases op with
      | put k0 v =>
        have : k0 = k := hk
        subst this
        exact kvLookup_put_self s k0 v
      | remove k0 =>
        have : k0 = k := hk
        subst this
        exact kvLookup_del_self hs k0
    · have hnd' : (rest.map PatchOp.key).Nodup := (List.nodup_cons.mp hnd).2
      exact ih (applyPatchOp_WF hs o) hnd' hmem

theorem mem_mergedKeys {a b : List Nat} {k : Nat} :
    k ∈ mergedKeys a b ↔ k ∈ a ∨ k ∈ b := by
  induction a, b using mergedKeys.induct
  · simp [mergedKeys]
  · simp [mergedKeys]
  · next x t y u h1 ih =>
    simp only [mergedKeys, if_pos h1, List.mem_cons, ih, List.mem_cons]
    tauto
  · next x t y u h1 h2 ih =>
    simp only [mergedKeys, if_neg h1, if_pos h2, List.mem_cons, ih, List.mem_cons]
    tauto
  · next x t y u h1 h2 ih =>
    have hxy : x = y := le_antisymm (not_lt.mp h2) (not_lt.mp h1)
    subst hxy
    simp only [mergedKeys, if_neg h1, List.mem_cons, ih, List.mem_cons]
    tauto

theorem mergedKeys_pairwise {a b : List Nat}
    (ha : a.Pairwise (· < ·)) (hb : b.Pairwise (· < ·)) :
    (mergedKeys a b).Pairwise (· < ·) := by
  induction a, b using mergedKeys.induct
  · simpa [mergedKeys] using hb
  · simpa [mergedKeys] using ha
  · next x t y u h1 ih =>
    rw [show mergedKeys (x :: t) (y :: u) = x :: mergedKeys t (y :: u) by
      simp [mergedKeys, h1]]
    refine List.pairwise_cons.mpr ⟨?_, ih (List.pairwise_cons.mp ha).2 hb⟩
    intro z hz
    rcases mem_mergedKeys.mp hz with hz | hz
    · exact (List.pairwise_cons.mp ha).1 z hz
    · rcases List.mem_cons.mp hz with hz | hz
      · exact hz ▸ h1
      · exact lt_trans h1 ((List.pairwise_cons.mp hb).1 z hz)
  · next x t y u h1 h2 ih =>
    rw [show mergedKeys (x :: t) (y :: u) = y :: mergedKeys (x :: t) u by
      simp [mergedKeys, h1, h2]]
    refine List.pairwise_cons.mpr ⟨?_, ih ha (List.pairwise_cons.mp hb).2⟩
    intro z hz
    rcases mem_mergedKeys.mp hz with hz | hz
    · rcases List.mem_cons.mp hz with hz | hz
      · exact hz ▸ h2
      · exact lt_trans h2 ((List.pairwise_cons.mp ha).1 z hz)
    · exact (List.pairwise_cons.mp hb).1 z hz
  · next x t y u h1 h2 ih =>
    have hxy : x = y := le_antisymm (not_lt.mp h2) (not_lt.mp h1)
    subst hxy
    rw [show mergedKeys (x :: t) (x :: u) = x :: mergedKeys t u by
      simp [mergedKeys, h1]]
    refine List.pairwise_cons.mpr
      ⟨?_, ih (List.pairwise_cons.mp ha).2 (List.pairwise_cons.mp hb).2⟩
    intro z hz
    rcases mem_mergedKeys.mp hz with hz | hz
    · exact (List.pairwise_cons.mp ha).1 z hz
    · exact (List.pairwise_cons.mp hb).1 z hz

theorem mergedKeys_nodup {a b : List Nat}
    (ha : a.Chain' (· < ·)) (hb : b.Chain' (· < ·)) : (mergedKeys a b).Nodup := by
  have hp := mergedKeys_pairwise (List.chain'_iff_pairwise.mp ha) (List.chain'_iff_pairwise.mp hb)
  exact hp.imp Nat.ne_of_lt

theorem diffOps_eq (before after : DocumentState) :
    diffOps before after =
      (mergedKeys (kvKeys before) (kvKeys after)).filterMap (diffOpAt before after) := rfl

theorem diffOpAt_key {before after : DocumentState} {k : FileId} {op : PatchOp}
    (h : diffOpAt before after k = some op) : op.key = k := by
  unfold diffOpAt at h
  cases hA : kvLookup after k with
  | some v =>
    rw [hA] at h
    by_cases hB : kvLookup before k = some v
    · simp [hB] at h
    · simp only [if_neg hB] at h
      cases h
      rfl
  | none =>
    rw [hA] at h
    cases hB : kvLookup before k with
    | some w =>
      rw [hB] at h
      cases h
      rfl
    | none => rw [hB] at h; cases h

theorem diffOps_mem {before after : DocumentState} {op : PatchOp}
    (h : op ∈ diffOps before after) : diffOpAt before after op.key = some op := by
  rw [diffOps_eq] at h
  rcases List.mem_filterMap.mp h with ⟨k, _, hk⟩
  have hkey := diffOpAt_key hk
  rw [hkey]
  exact hk

theorem diffOps_keys_nodup {before after : DocumentState}
    (hb : KVWF before) (ha : KVWF after) :
    ((diffOps before after).map PatchOp.key).Nodup := by
  have hnd := mergedKeys_nodup hb ha
  rw [diffOps_eq]
  generalize mergedKeys (kvKeys before) (kvKeys after) = l at hnd ⊢
  induction l with
  | nil => simp
  | cons x t ih =>
    have hnd' := (List.nodup_cons.mp hnd).2
    have hx := (List.nodup_cons.mp hnd).1
    cases hfx : diffOpAt before after x with
    | none => simpa [List.filterMap_cons, hfx] using ih hnd'
    | some op =>
      simp only [List.filterMap_cons, hfx, List.map_cons]
      refine List.nodup_cons.mpr ⟨?_, ih hnd'⟩
      intro hmem
      rcases List.mem_map.mp hmem with ⟨op', hop', hkey⟩
      rcases List.mem_filterMap.mp hop' with ⟨k', hk', hfk'⟩
      have h1 : op'.key = k' := diffOpAt_key hfk'
      have h2 : op.key = x := diffOpAt_key hfx
      rw [h2, h1] at hkey
      exact hx (hkey ▸ hk')

theorem lookup_mem_keys {l : DocumentState} {k : FileId} {v : GPXFile}
    (h : kvLookup l k = some v) : k ∈ kvKeys l := by
  have := kvLookup_some_mem h
  exact List.mem_map.mpr ⟨(k, v), this, rfl⟩

theorem find_of_key_nodup {l : Patch} {k : FileId} {op : PatchOp}
    (hnd : (l.map PatchOp.key).Nodup) (hop : op ∈ l) (hk : op.key = k) :
    l.find? (fun o => o.key == k) = some op := by
  induction l with
  | nil => cases hop
  | cons o rest ih =>
    rcases List.mem_cons.mp hop with heq | hmem
    · subst heq
      simp [List.find?, hk]
    · have hne : o.key ≠ k := by
        intro hko
        have hmk : op.key ∈ rest.map PatchOp.key := List.mem_map_of_mem _ hmem
        rw [hk, ← hko] at hmk
        exact (List.nodup_cons.mp hnd).1 hmk
      simp only [List.find?]
      rw [show (o.key == k) = false from beq_eq_false_iff_ne.mpr hne]
      exact ih (List.nodup_cons.mp hnd).2 hmem

theorem find_diffOp_none {before after : DocumentState} {k : FileId}
    (h : diffOpAt before after k = none) :
    (diffOps before after).find? (fun o => o.key == k) = none := by
  refine List.find?_eq_none.mpr ?_
  intro op hop
  have hmem := diffOps_mem hop
  intro hbeq
  have : op.key = k := beq_iff_eq.mp hbeq
  rw [this] at hmem
  rw [h] at hmem
  cases hmem

/-- Central lemma: applying the diff transforms the lookups of `before`
into the lookups of `after`. -/
theorem applyPatches_diff_lookup {before after : DocumentState}
    (hb : KVWF before) (ha : KVWF after) (k : FileId) :
    kvLookup (applyPatches before (diffOps before after)) k = kvLookup after k := by
  cases hA : kvLookup after k with
  | some v =>
    by_cases hB : kvLookup before k = some v
    · have hnone : diffOpAt before after k = none := by simp [diffOpAt, hA, hB]
      have hno : ∀ op ∈ diffOps before after, op.key ≠ k := by
        intro op hop hko
        have hmem := diffOps_mem hop
        rw [hko, hnone] at hmem
        cases hmem
      rw [applyPatches_lookup_no_key _ _ hno, hB]
    · have hsome : diffOpAt before after k = some (.put k v) := by
        simp [diffOpAt, hA, hB]
      have hopmem : PatchOp.put k v ∈ diffOps before after := by
        rw [diffOps_eq]
        refine List.mem_filterMap.mpr ⟨k, ?_, hsome⟩
        exact mem_mergedKeys.mpr (Or.inr (lookup_mem_keys hA))
      have heff := applyPatches_lookup_key hb (diffOps before after)
        (diffOps_keys_nodup hb ha) (.put k v) hopmem k rfl
      rw [heff]
      rfl
  | none =>
    cases hB : kvLookup before k with
    | some w =>
      have hsome : diffOpAt before after k = some (.remove k) := by
        simp [diffOpAt, hA, hB]
      have hopmem : PatchOp.remove k ∈ diffOps before after := by
        rw [diffOps_eq]
        refine List.mem_filterMap.mpr ⟨k, ?_, hsome⟩
        exact mem_mergedKeys.mpr (Or.inl (lookup_mem_keys hB))
      have heff := applyPatches_lookup_key hb (diffOps before after)
        (diffOps_keys_nodup hb ha) (.remove k) hopmem k rfl
      rw [heff]
      rfl
    | none =>
      have hnone : diffOpAt before after k = none := by simp [diffOpAt, hA, hB]
      have hno : ∀ op ∈ diffOps before after, op.key ≠ k := by
        intro op hop hko
        have hmem := diffOps_mem hop
        rw [hko, hnone] at hmem
        cases hmem
      rw [applyPatches_lookup_no_key _ _ hno, hB]

/-- Applying the diff of two well-formed states is exactly the target state. -/
theorem applyPatches_diffOps {before after : DocumentState}
    (hb : KVWF before) (ha : KVWF after) :
    applyPatches before (diffOps before after) = after :=
  kvExt (applyPatches_WF hb _) ha (applyPatches_diff_lookup hb ha)

/-! ### Log contiguity lemmas -/

theorem contig_ge {ks : List Int} {a : Int} (h : isContigFrom a ks = true) :
    ∀ x ∈ ks, a ≤ x := by
  induction ks generalizing a with
  | nil => intro x hx; cases hx
  | cons k t ih =>
    simp only [isContigFrom, Bool.and_eq_true, decide_eq_true_eq] at h
    intro x hx
    rcases List.mem_cons.mp hx with hx | hx
    · omega
    · have := ih h.2 x hx
      omega

theorem contig_lt {ks : List Int} {a : Int} (h : isContigFrom a ks = true) :
    ∀ x ∈ ks, x < a + ks.length := by
  induction ks generalizing a with
  | nil => intro x hx; cases hx
  | cons k t ih =>
    simp only [isContigFrom, Bool.and_eq_true, decide_eq_true_eq] at h
    intro x hx
    rcases List.mem_cons.mp hx with hx | hx
    · simp only [List.length_cons]
      omega
    · have := ih h.2 x hx
      simp only [List.length_cons]
      omega

theorem contig_pairwise {ks : List Int} {a : Int} (h : isContigFrom a ks = true) :
    ks.Pairwise (· < ·) := by
  induction ks generalizing a with
  | nil => exact List.Pairwise.nil
  | cons k t ih =>
    simp only [isContigFrom, Bool.and_eq_true, decide_eq_true_eq] at h
    refine List.pairwise_cons.mpr ⟨?_, ih h.2⟩
    intro z hz
    have := contig_ge h.2 z hz
    omega

theorem contig_lookup {l : PatchTable} {a j : Int}
    (h : isContigFrom a (kvKeys l) = true) (h1 : a ≤ j) (h2 : j < a + l.length) :
    ∃ e, kvLookup l j = some e := by
  induction l generalizing a with
  | nil =>
    simp only [List.length_nil] at h2
    omega
  | cons x t ih =>
    obtain ⟨k, v⟩ := x
    simp only [kvKeys, List.map_cons, isContigFrom, Bool.and_eq_true, decide_eq_true_eq] at h
    by_cases hj : j = k
    · exact ⟨v, by simp [kvLookup, hj]⟩
    · have h1' : a + 1 ≤ j := by omega
      have h2' : j < (a + 1) + t.length := by
        simp only [List.length_cons] at h2
        omega
      obtain ⟨e, he⟩ := ih h.2 h1' h2'
      exact ⟨e, by simpa [kvLookup, hj] using he⟩

theorem contig_getLastD {xs : PatchTable} {x : Int × PatchTableEntry} {a : Int}
    (hx : x.1 = a) (h : isContigFrom (a + 1) (kvKeys xs) = true) :
    (xs.getLastD x).1 = a + xs.length := by
  induction xs generalizing x a with
  | nil => simpa using hx
  | cons y ys ih =>
    simp only [kvKeys, List.map_cons, isContigFrom, Bool.and_eq_true, decide_eq_true_eq] at h
    rw [List.getLastD_cons]
    have := ih (x := y) (a := a + 1) h.1 h.2
    simp only [List.length_cons]
    omega

theorem patchMinMax_eq {x : Int × PatchTableEntry} {xs : PatchTable}
    (hc : isContigFrom x.1 (kvKeys (x :: xs)) = true) :
    patchMinMaxIndex (x :: xs) = (x.1, x.1 + (x :: xs).length) := by
  simp only [kvKeys, List.map_cons, isContigFrom, Bool.and_eq_true, decide_eq_true_eq] at hc
  have hlast := contig_getLastD (x := x) (a := x.1) rfl hc.2
  simp only [patchMinMaxIndex, List.length_cons]
  rw [hlast]
  simp only [Prod.mk.injEq, true_and]
  omega

/-- In a well-formed log every key between `min` and `max - 1` is present. -/
theorem logWF_lookup {s : UndoRedoState} (h : LogWF s) {j : Int}
    (h1 : (patchMinMaxIndex s.patches).1 ≤ j)
    (h2 : j ≤ (patchMinMaxIndex s.patches).2 - 1) :
    ∃ e, kvLookup s.patches j = some e := by
  obtain ⟨hc, -, -⟩ := h
  cases hp : s.patches with
  | nil =>
    rw [hp] at h1 h2
    simp only [patchMinMaxIndex] at h1 h2
    omega
  | cons x xs =>
    rw [hp] at hc h1 h2
    have hmm := @patchMinMax_eq x xs hc
    simp only [hmm] at h1 h2
    refine contig_lookup (a := x.1) hc h1 ?_
    simp only [List.length_cons] at h2 ⊢
    omega

theorem logWF_key_bounds {l : PatchTable}
    (hc : isContigFrom (patchMinMaxIndex l).1 (kvKeys l) = true) :
    ∀ e ∈ l, (patchMinMaxIndex l).1 ≤ e.1 ∧ e.1 ≤ (patchMinMaxIndex l).2 - 1 := by
  intro e he
  cases l with
  | nil => cases he
  | cons x xs =>
    have hc' : isContigFrom x.1 (kvKeys (x :: xs)) = true := hc
    have hmm := patchMinMax_eq hc'
    have hkey : e.1 ∈ kvKeys (x :: xs) := List.mem_map.mpr ⟨e, he, rfl⟩
    constructor
    · have := contig_ge hc' e.1 hkey
      simpa [hmm] using this
    · have := contig_lt hc' e.1 hkey
      rw [hmm]
      simp only [kvKeys, List.length_map] at this ⊢
      omega

/-- Keys of a filtered table are a sublist of the original keys. -/
theorem kvKeys_filter_sublist (l : KVList κ α) (p : κ × α → Bool) :
    (kvKeys (l.filter p)).Sublist (kvKeys l) :=
  (List.filter_sublist l).map Prod.fst

theorem sorted_int_length {l : List Int} {a b : Int} (hs : l.Pairwise (· < ·))
    (hb : ∀ x ∈ l, a ≤ x ∧ x ≤ b) : l.length ≤ (b + 1 - a).toNat := by
  induction l generalizing a with
  | nil => simp
  | cons x t ih =>
    have hx := hb x (List.mem_cons_self _ _)
    have ht : ∀ y ∈ t, x + 1 ≤ y ∧ y ≤ b := by
      intro y hy
      have h1 := (List.pairwise_cons.mp hs).1 y hy
      have h2 := (hb y (List.mem_cons_of_mem _ hy)).2
      omega
    have := ih (List.pairwise_cons.mp hs).2 ht
    simp only [List.length_cons]
    omega

theorem kvPut_length [LinearOrder κ] (l : KVList κ α) (k : κ) (v : α) :
    (kvPut l k v).length ≤ l.length + 1 := by
  induction l with
  | nil => simp [kvPut]
  | cons x t ih =>
    obtain ⟨k', v'⟩ := x
    by_cases h1 : k < k'
    · simp [kvPut, h1]
    · by_cases h2 : k = k'
      · simp [kvPut, h1, h2]
      · simp only [kvPut, if_neg h1, if_neg h2, List.length_cons]
        omega

/-! ## Claim theorems -/

/-- C1: every transaction committed through `applyGlobal` /
`applyToFiles` / `applyEachToFilesAndGlobal` records its patch pair with
`produceWithPatches`; applying the forward patch to the starting state
yields the new state, applying the inverse patch to the new state yields
back the starting state, and applying the inverse then the forward patch
returns to the new state — all as structural value equality of the
`DocumentState`. -/
theorem c1_patch_pair_roundtrip (S : DocumentState)
    (callback : DocumentState → DocumentState)
    (hS : KVWF S) (hS' : KVWF (callback S)) :
    applyPatches S (produceWithPatches S callback).2.1 = (produceWithPatches S callback).1 ∧
    applyPatches (produceWithPatches S callback).1 (produceWithPatches S callback).2.2 = S ∧
    applyPatches
        (applyPatches (produceWithPatches S callback).1 (produceWithPatches S callback).2.2)
        (produceWithPatches S callback).2.1 =
      (produceWithPatches S callback).1 := by
  refine ⟨applyPatches_diffOps hS hS', applyPatches_diffOps hS' hS, ?_⟩
  show applyPatches (applyPatches (callback S) (diffOps (callback S) S)) (diffOps S (callback S))
    = callback S
  rw [applyPatches_diffOps hS' hS]
  exact applyPatches_diffOps hS hS'

/-- Witness for C1 at a concrete two-file transaction (adds one file and
deletes another). -/
theorem c1_patch_pair_roundtrip_witness :
    applyPatches [(0, sampleFileA)]
        (produceWithPatches [(0, sampleFileA)] (fun s => kvDel (kvPut s 1 sampleFileB) 0)).2.1 =
      (produceWithPatches [(0, sampleFileA)] (fun s => kvDel (kvPut s 1 sampleFileB) 0)).1 ∧
    applyPatches
        (produceWithPatches [(0, sampleFileA)] (fun s => kvDel (kvPut s 1 sampleFileB) 0)).1
        (produceWithPatches [(0, sampleFileA)] (fun s => kvDel (kvPut s 1 sampleFileB) 0)).2.2 =
      [(0, sampleFileA)] ∧
    applyPatches
        (applyPatches
          (produceWithPatches [(0, sampleFileA)] (fun s => kvDel (kvPut s 1 sampleFileB) 0)).1
          (produceWithPatches [(0, sampleFileA)] (fun s => kvDel (kvPut s 1 sampleFileB) 0)).2.2)
        (produceWithPatches [(0, sampleFileA)] (fun s => kvDel (kvPut s 1 sampleFileB) 0)).2.1 =
      (produceWithPatches [(0, sampleFileA)] (fun s => kvDel (kvPut s 1 sampleFileB) 0)).1 :=
  c1_patch_pair_roundtrip [(0, sampleFileA)] (fun s => kvDel (kvPut s 1 sampleFileB) 0)
    (by simp [KVWF, kvKeys]) (by simp [KVWF, kvKeys, kvPut, kvDel])

/-- C2: `undo()` is a no-op when `canUndo` is false (`canUndo` being
`cursor ≥ min`); otherwise it applies the `inversePatch` of the entry at
the cursor to the live `DocumentState`, leaves the log untouched, and
decrements the cursor.  Symmetrically `redo()` is a no-op when `canRedo`
is false (`canRedo` being `cursor < max - 1`); otherwise it applies the
forward patch of the entry at `cursor + 1` and increments the cursor. -/
theorem c2_undo_redo_cursor (s : UndoRedoState) (h : LogWF s) :
    canUndo s = decide (s.patchIndex ≥ (patchMinMaxIndex s.patches).1) ∧
    canRedo s = decide (s.patchIndex < (patchMinMaxIndex s.patches).2 - 1) ∧
    (canUndo s = false → undo s = s) ∧
    (canUndo s = true → ∃ e, kvLookup s.patches s.patchIndex = some e ∧
      (undo s).fileState = applyPatches s.fileState e.inversePatch ∧
      (undo s).patches = s.patches ∧ (undo s).patchIndex = s.patchIndex - 1) ∧
    (canRedo s = false → redo s = s) ∧
    (canRedo s = true → ∃ e, kvLookup s.patches (s.patchIndex + 1) = some e ∧
      (redo s).fileState = applyPatches s.fileState e.patch ∧
      (redo s).patches = s.patches ∧ (redo s).patchIndex = s.patchIndex + 1) := by
  have hlo := h.2.1
  have hhi := h.2.2
  refine ⟨rfl, rfl, ?_, ?_, ?_, ?_⟩
  · intro hcu
    simp [undo, hcu]
  · intro hcu
    have hge : (patchMinMaxIndex s.patches).1 ≤ s.patchIndex := by
      simpa [canUndo, ge_iff_le, decide_eq_true_eq] using hcu
    obtain ⟨e, he⟩ := logWF_lookup h hge hhi
    exact ⟨e, he, by simp [undo, hcu, he, applyPatchCommit],
      by simp [undo, hcu, he, applyPatchCommit], by simp [undo, hcu, he, applyPatchCommit]⟩
  · intro hcr
    simp [redo, hcr]
  · intro hcr
    have hlt : s.patchIndex < (patchMinMaxIndex s.patches).2 - 1 := by
      simpa [canRedo, decide_eq_true_eq] using hcr
    obtain ⟨e, he⟩ := logWF_lookup h (j := s.patchIndex + 1) (by omega) (by omega)
    exact ⟨e, he, by simp [redo, hcr, he, applyPatchCommit],
      by simp [redo, hcr, he, applyPatchCommit], by simp [redo, hcr, he, applyPatchCommit]⟩

/-- Witness for C2 at a concrete one-entry log with the cursor on it. -/
theorem c2_undo_redo_cursor_witness :
    (canUndo sampleLogState = true) ∧
    (undo sampleLogState).patchIndex = sampleLogState.patchIndex - 1 ∧
    (undo sampleLogState).patches = sampleLogState.patches := by
  have h := (c2_undo_redo_cursor sampleLogState (by decide)).2.2.2.1 (by decide)
  obtain ⟨e, he, hf, hpat, hidx⟩ := h
  exact ⟨by decide, hidx, hpat⟩

/-- C3: committing a patch pair first drops the stale redo tail (every
entry above the cursor), appends the new entry at `cursor + 1`, advances
the cursor, keeps at most `MAX_PATCHES` (100) entries (pruning from the
low end), and once the cursor sits below the (possibly pruned) minimum of
the key range, `canUndo` is false. -/
theorem c3_store_patches_bounded (s : UndoRedoState) (h : LogWF s) (p ip : Patch) :
    (storePatches p ip s).patchIndex = s.patchIndex + 1 ∧
    kvLookup (storePatches p ip s).patches (s.patchIndex + 1) =
      some ⟨p, ip, s.patchIndex + 1⟩ ∧
    (∀ k, s.patchIndex + 1 < k → kvLookup (storePatches p ip s).patches k = none) ∧
    ((storePatches p ip s).patches.length : Int) ≤ MAX_PATCHES ∧
    canUndo { storePatches p ip s with
      patchIndex := (patchMinMaxIndex (storePatches p ip s).patches).1 - 1 } = false := by
  obtain ⟨hc, hlo, hhi⟩ := h
  have hboundsAll := logWF_key_bounds hc
  set mm := patchMinMaxIndex s.patches with hmmdef
  set l1 := s.patches.filter (fun e => decide (e.1 ≤ s.patchIndex)) with hl1
  set l2 := if mm.2 - mm.1 + 1 > MAX_PATCHES
    then l1.filter (fun e => decide (mm.2 - MAX_PATCHES < e.1))
    else l1 with hl2
  have hstore : (storePatches p ip s).patches =
      kvPut l2 (s.patchIndex + 1) ⟨p, ip, s.patchIndex + 1⟩ := rfl
  have hl2mem : ∀ e ∈ l2, e ∈ s.patches ∧ e.1 ≤ s.patchIndex := by
    intro e he
    rw [hl2] at he
    by_cases hcond : mm.2 - mm.1 + 1 > MAX_PATCHES
    · rw [if_pos hcond] at he
      have h1 := List.mem_filter.mp he
      have h2 := List.mem_filter.mp h1.1
      exact ⟨h2.1, by simpa using h2.2⟩
    · rw [if_neg hcond] at he
      have h2 := List.mem_filter.mp he
      exact ⟨h2.1, by simpa using h2.2⟩
  refine ⟨rfl, ?_, ?_, ?_, ?_⟩
  · rw [hstore]
    exact kvLookup_put_self l2 _ _
  · intro k hk
    rw [hstore, kvLookup_put_ne l2 _ k _ (by omega)]
    refine kvLookup_eq_none ?_
    intro v hv
    have := (hl2mem (k, v) hv).2
    simp only at this
    omega
  · -- the bounded-retention invariant
    have hsorted : (kvKeys s.patches).Pairwise (· < ·) := contig_pairwise hc
    have hl2sorted : (kvKeys l2).Pairwise (· < ·) := by
      have hsub : (kvKeys l2).Sublist (kvKeys s.patches) := by
        rw [hl2]
        by_cases hcond : mm.2 - mm.1 + 1 > MAX_PATCHES
        · rw [if_pos hcond]
          exact (kvKeys_filter_sublist _ _).trans (kvKeys_filter_sublist _ _)
        · rw [if_neg hcond]
          exact kvKeys_filter_sublist _ _
      exact hsorted.sublist hsub
    have hlen2 : (l2.length : Int) ≤ MAX_PATCHES - 1 := by
      by_cases hcond : mm.2 - mm.1 + 1 > MAX_PATCHES
      · have hbd : ∀ x ∈ kvKeys l2, mm.2 - MAX_PATCHES + 1 ≤ x ∧ x ≤ s.patchIndex := by
          intro x hx
          rcases List.mem_map.mp hx with ⟨e, he, hex⟩
          have he2 : e ∈ l1.filter (fun e => decide (mm.2 - MAX_PATCHES < e.1)) := by
            rw [hl2, if_pos hcond] at he
            exact he
          have h1 := List.mem_filter.mp he2
          have hgt : mm.2 - MAX_PATCHES < e.1 := by simpa using h1.2
          have hle : e.1 ≤ s.patchIndex := (hl2mem e (by rw [hl2, if_pos hcond]; exact he2)).2
          omega
        have := sorted_int_length hl2sorted hbd
        have hlenmap : (kvKeys l2).length = l2.length := List.length_map _ _
        rw [hlenmap] at this
        simp only [MAX_PATCHES] at *
        omega
      · have hbd : ∀ x ∈ kvKeys l2, mm.1 ≤ x ∧ x ≤ mm.2 - 1 := by
          intro x hx
          rcases List.mem_map.mp hx with ⟨e, he, hex⟩
          have hmem := (hl2mem e he).1
          have := hboundsAll e hmem
          omega
        have := sorted_int_length hl2sorted hbd
        have hlenmap : (kvKeys l2).length = l2.length := List.length_map _ _
        rw [hlenmap] at this
        simp only [MAX_PATCHES] at *
        omega
    have hput := kvPut_length l2 (s.patchIndex + 1) ⟨p, ip, s.patchIndex + 1⟩
    rw [hstore]
    simp only [MAX_PATCHES] at *
    omega
  · simp only [canUndo]
    simp only [decide_eq_false_iff_not, not_le, ge_iff_le]
    omega

/-- Witness for C3: committing on top of a concrete one-entry log. -/
theorem c3_store_patches_bounded_witness :
    (storePatches [] [] sampleLogState).patchIndex = sampleLogState.patchIndex + 1 ∧
    ((storePatches [] [] sampleLogState).patches.length : Int) ≤ MAX_PATCHES := by
  have h := c3_store_patches_bounded sampleLogState (by decide) [] []
  exact ⟨h.1, h.2.2.2.1⟩

/-! ### Empty-selection behaviour (C8) -/

/-- The diff of a state against itself is the empty patch. -/
theorem diffOps_self (S : DocumentState) : diffOps S S = [] := by
  rw [diffOps_eq]
  refine List.filterMap_eq_nil.mpr ?_
  intro k _
  unfold diffOpAt
  cases h : kvLookup S k with
  | some v => simp [h]
  | none => simp [h]

/-- The `mergeSelection` callback does nothing on an empty traversal. -/
theorem mergeCallback_empty (retime : List TrackPoint → List TrackPoint) (mergeTraces : Bool)
    (S : DocumentState) :
    (mergeSelection retime mergeTraces [] { fileState := S, patches := [], patchIndex := -1
      }).fileState = S := by
  cases mergeTraces <;> rfl

/-- C8 (corrected): on an empty selection, `duplicate`, `reverse`, `crop`,
`clean`, `reduce`, `style`, `hidden` and both `delete` operations return
early, changing nothing; `merge` and `extract` have no such guard — they
leave the `DocumentState` unchanged but still commit an empty patch pair,
appending a log entry at `cursor + 1` and advancing the cursor. -/
theorem c8_empty_selection_amended (s : UndoRedoState)
    (retime : List TrackPoint → List TrackPoint) (mergeTraces : Bool)
    (dist : Coordinates → Coordinates → Nat) (start endIdx : Int)
    (bounds : Coordinates × Coordinates) (inside delTP delW hidden : Bool) (style : Nat)
    (trav : Traversal) :
    duplicateSelection [] s = s ∧
    reverseSelection [] s = s ∧
    cropSelection start endIdx [] s = s ∧
    cleanSelection bounds inside delTP delW [] s = s ∧
    reduceSelection [] trav s = s ∧
    setStyleToSelection style [] s = s ∧
    setHiddenToSelection hidden [] s = s ∧
    deleteSelection [] s = s ∧
    deleteSelectedFiles [] s = s ∧
    ((mergeSelection retime mergeTraces [] s).fileState = s.fileState ∧
      (mergeSelection retime mergeTraces [] s).patchIndex = s.patchIndex + 1 ∧
      kvLookup (mergeSelection retime mergeTraces [] s).patches (s.patchIndex + 1) =
        some ⟨[], [], s.patchIndex + 1⟩) ∧
    ((extractSelection dist [] s).fileState = s.fileState ∧
      (extractSelection dist [] s).patchIndex = s.patchIndex + 1 ∧
      kvLookup (extractSelection dist [] s).patches (s.patchIndex + 1) =
        some ⟨[], [], s.patchIndex + 1⟩) := by
  have hmerge : ∀ S : DocumentState,
      (fun draft =>
        mergeFinish (if mergeTraces then
          mergeTracesBlend retime (([] : Traversal).foldl (mergeStep draft)
            (mergeInit draft))
        else (([] : Traversal).foldl (mergeStep draft) (mergeInit draft)))) S = S := by
    intro S
    cases mergeTraces <;> rfl
  refine ⟨rfl, rfl, rfl, rfl, rfl, rfl, rfl, rfl, rfl, ⟨?_, rfl, ?_⟩, ⟨rfl, rfl, ?_⟩⟩
  · exact hmerge s.fileState
  · show kvLookup (storePatches
        (diffOps s.fileState ((fun draft => mergeFinish _) s.fileState))
        (diffOps ((fun draft => mergeFinish _) s.fileState) s.fileState) s).patches
        (s.patchIndex + 1) = some ⟨[], [], s.patchIndex + 1⟩
    rw [show ((fun draft => mergeFinish _) s.fileState : DocumentState) = s.fileState from
      hmerge s.fileState]
    rw [diffOps_self]
    exact kvLookup_put_self _ _ _
  · show kvLookup (storePatches (diffOps s.fileState s.fileState)
        (diffOps s.fileState s.fileState) s).patches (s.patchIndex + 1) =
      some ⟨[], [], s.patchIndex + 1⟩
    rw [diffOps_self]
    exact kvLookup_put_self _ _ _

/-- Counterexample to C8 as stated: with nothing selected, `mergeSelection`
still mutates the store — the history cursor moves (and an empty log entry
is created), so merge is not a guarded no-op. -/
theorem c8_merge_empty_selection_cex :
    mergeSelection (fun pts => pts) false []
        { fileState := [], patches := [], patchIndex := -1 } ≠
      { fileState := [], patches := [], patchIndex := -1 } := by
  decide

/-! ### Id generation (C9) -/

/-- C9 (corrected): the ids handed out by `getFileIds` are `gpx-{i}` for
pairwise-distinct indices `i`, none of which belongs to a live document —
so simultaneously-live documents never share an id. -/
theorem c9_fresh_ids_amended (live : List String) (n : Nat) :
    getFileIds live n = (freshIdIndices live n).map gpxId ∧
    (freshIdIndices live n).Nodup ∧
    (∀ i ∈ freshIdIndices live n, live.contains (gpxId i) = false) := by
  refine ⟨rfl, ?_, ?_⟩
  · have h1 : (freshIdIndices live n).Sublist
        ((List.range (n + live.length)).filter (fun i => !live.contains (gpxId i))) :=
      List.take_sublist _ _
    have h2 := h1.trans (List.filter_sublist _)
    exact h2.nodup (List.nodup_range _)
  · intro i hi
    have h1 : i ∈ (List.range (n + live.length)).filter (fun i => !live.contains (gpxId i)) :=
      List.take_subset _ _ hi
    have h2 := (List.mem_filter.mp h1).2
    simpa using h2

/-- Counterexample to C9 as stated: in the session add file, delete all
files, add a file again, `getFileIds` assigns the id `gpx-0` twice — to two
different documents. -/
theorem c9_id_reuse_cex :
    sessionAssignedIds [.addNew, .deleteAll, .addNew] = ["gpx-0", "gpx-0"] ∧
    ¬ (sessionAssignedIds [.addNew, .deleteAll, .addNew]).Nodup := by
  constructor
  · rfl
  · decide

/-! ### Statistics tree (C10) -/

/-- A child id matching no key contributes the empty statistics. -/
theorem findChildStats_missing
    (stats : List (Nat × (GPXStatisticsTree ⊕ GPXStatistics))) (id : Nat)
    (item : ItemSelector) (h : ∀ c ∈ stats, c.1 ≠ id) :
    GPXStatisticsTree.findChildStats stats id item = GPXStatistics.empty := by
  induction stats with
  | nil => simp [GPXStatisticsTree.findChildStats]
  | cons c rest ih =>
    obtain ⟨k, v⟩ := c
    have hk : k ≠ id := h (k, v) (List.mem_cons_self _ _)
    have hrest : ∀ c ∈ rest, c.1 ≠ id := fun c hc => h c (List.mem_cons_of_mem _ hc)
    cases v with
    | inl t =>
      simp only [GPXStatisticsTree.findChildStats, if_neg hk]
      exact ih hrest
    | inr st =>
      simp only [GPXStatisticsTree.findChildStats, if_neg hk]
      exact ih hrest

/-- C10: `getStatisticsFor` is total by construction; an `undefined` or
`'waypoints'` id at the node's level merges all children, and an id that
matches no child returns the empty statistics rather than failing. -/
theorem c10_statistics_total (level : ListLevel)
    (stats : List (Nat × (GPXStatisticsTree ⊕ GPXStatistics))) (item : ItemSelector) :
    (item level = none →
      (GPXStatisticsTree.mk level stats).getStatisticsFor item =
        GPXStatisticsTree.mergeChildren stats item GPXStatistics.empty) ∧
    (item level = some (Sum.inr ()) →
      (GPXStatisticsTree.mk level stats).getStatisticsFor item =
        GPXStatisticsTree.mergeChildren stats item GPXStatistics.empty) ∧
    (∀ id, item level = some (Sum.inl id) → (∀ c ∈ stats, c.1 ≠ id) →
      (GPXStatisticsTree.mk level stats).getStatisticsFor item = GPXStatistics.empty) := by
  refine ⟨?_, ?_, ?_⟩
  · intro h
    simp only [GPXStatisticsTree.getStatisticsFor, h]
  · intro h
    simp only [GPXStatisticsTree.getStatisticsFor, h]
  · intro id h hmiss
    simp only [GPXStatisticsTree.getStatisticsFor, h]
    exact findChildStats_missing stats id item hmiss

/-- Witness for C10 at a concrete two-level tree and a selector whose id
matches no child. -/
theorem c10_statistics_total_witness :
    (GPXStatisticsTree.mk ListLevel.FILE
        [(0, Sum.inl (GPXStatisticsTree.mk ListLevel.TRACK
            [(0, Sum.inr { distance := 5, duration := 6, points := 7 })]))]).getStatisticsFor
      (fun _ => some (Sum.inl 3)) = GPXStatistics.empty :=
  (c10_statistics_total ListLevel.FILE
      [(0, Sum.inl (GPXStatisticsTree.mk ListLevel.TRACK
          [(0, Sum.inr { distance := 5, duration := 6, points := 7 })]))]
      (fun _ => some (Sum.inl 3))).2.2 3 rfl (by decide)

/-! ### Split point location (C6) -/

/-- Behaviour of the `dbUtils.split` closest-point loop from a running
best pair `(m0, d0)`: the result carries the minimum distance over the
remaining points, and the index only moves on a strict improvement — the
first index achieving the final minimum wins. -/
theorem splitFold_spec (dist : Coordinates → Coordinates → Nat) (c : Coordinates) :
    ∀ (pts : List TrackPoint) (k m0 d0 : Nat),
    ∃ j dj,
      (List.enumFrom k pts).foldl (splitFoldStep dist c) (m0, some d0) = (j, some dj) ∧
      dj ≤ d0 ∧
      (∀ i p, pts.get? i = some p → dj ≤ dist p.coord c) ∧
      ((j = m0 ∧ dj = d0) ∨
        (∃ i0 p0, pts.get? i0 = some p0 ∧ j = k + i0 ∧ dj = dist p0.coord c ∧ dj < d0 ∧
          (∀ i p, i < i0 → pts.get? i = some p → dj < dist p.coord c))) := by
  intro pts
  induction pts with
  | nil =>
    intro k m0 d0
    refine ⟨m0, d0, rfl, le_refl _, ?_, Or.inl ⟨rfl, rfl⟩⟩
    intro i p h
    simp at h
  | cons p rest ih =>
    intro k m0 d0
    have hexp : (List.enumFrom k (p :: rest)).foldl (splitFoldStep dist c) (m0, some d0) =
        (List.enumFrom (k + 1) rest).foldl (splitFoldStep dist c)
          (if dist p.coord c < d0 then (k, some (dist p.coord c)) else (m0, some d0)) := by
      rw [List.enumFrom_cons, List.foldl_cons]
      rfl
    by_cases hlt : dist p.coord c < d0
    · rw [hexp, if_pos hlt]
      obtain ⟨j, dj, hfold, hle, hmin, hcase⟩ := ih (k + 1) k (dist p.coord c)
      refine ⟨j, dj, hfold, le_trans hle (le_of_lt hlt), ?_, ?_⟩
      · intro i q hq
        cases i with
        | zero =>
          cases hq
          exact hle
        | succ i' => exact hmin i' q hq
      · rcases hcase with ⟨hj, hdj⟩ | ⟨i0, p0, hget, hj, hdj, hdlt, hfirst⟩
        · refine Or.inr ⟨0, p, rfl, by omega, by rw [hdj], by rw [hdj]; exact hlt, ?_⟩
          intro i q hi hq
          omega
        · refine Or.inr ⟨i0 + 1, p0, hget, by omega, hdj, lt_trans hdlt hlt, ?_⟩
          intro i q hi hq
          cases i with
          | zero =>
            cases hq
            exact hdlt
          | succ i' => exact hfirst i' q (by omega) hq
    · rw [hexp, if_neg hlt]
      obtain ⟨j, dj, hfold, hle, hmin, hcase⟩ := ih (k + 1) m0 d0
      refine ⟨j, dj, hfold, hle, ?_, ?_⟩
      · intro i q hq
        cases i with
        | zero =>
          cases hq
          omega
        | succ i' => exact hmin i' q hq
      · rcases hcase with ⟨hj, hdj⟩ | ⟨i0, p0, hget, hj, hdj, hdlt, hfirst⟩
        · exact Or.inl ⟨hj, hdj⟩
        · refine Or.inr ⟨i0 + 1, p0, hget, by omega, hdj, hdlt, ?_⟩
          intro i q hi hq
          cases i with
          | zero =>
            cases hq
            omega
          | succ i' => exact hfirst i' q (by omega) hq

/-- The closest-point loop characterized over the whole segment: the
result is in range, achieves the global minimum distance, and every
earlier point is strictly farther. -/
theorem splitClosestIndex_spec (dist : Coordinates → Coordinates → Nat) (seg : TrackSegment)
    (coordinates : Coordinates) (hne : seg.trkpt ≠ []) :
    splitClosestIndex dist seg coordinates < seg.trkpt.length ∧
    (∀ j p, seg.trkpt.get? j = some p →
      segPointDist dist seg coordinates (splitClosestIndex dist seg coordinates) ≤
        dist p.coord coordinates) ∧
    (∀ j p, j < splitClosestIndex dist seg coordinates → seg.trkpt.get? j = some p →
      segPointDist dist seg coordinates (splitClosestIndex dist seg coordinates) <
        dist p.coord coordinates) := by
  cases hpts : seg.trkpt with
  | nil => exact absurd hpts hne
  | cons p0 rest =>
    obtain ⟨j, dj, hfold, hle, hmin, hcase⟩ :=
      splitFold_spec dist coordinates rest 1 0 (dist p0.coord coordinates)
    have hidx : splitClosestIndex dist seg coordinates = j := by
      unfold splitClosestIndex
      rw [hpts]
      rw [show (p0 :: rest).enum = (0, p0) :: List.enumFrom 1 rest by
        simp [List.enum, List.enumFrom_cons]]
      rw [List.foldl_cons]
      rw [show (splitFoldStep dist coordinates (0, none) (0, p0)) =
        ((0 : Nat), some (dist p0.coord coordinates)) from rfl]
      rw [hfold]
    have hdjval : segPointDist dist seg coordinates j = dj := by
      rcases hcase with ⟨hj, hdj⟩ | ⟨i0, q0, hget, hj, hdj, hdlt, _⟩
      · rw [hj]
        unfold segPointDist
        rw [hpts]
        simpa using hdj.symm
      · rw [hj]
        unfold segPointDist
        rw [hpts]
        have : (p0 :: rest).get? (1 + i0) = some q0 := by
          rw [show 1 + i0 = i0 + 1 by omega]
          simpa using hget
        rw [this]
        exact hdj.symm
    rw [hidx]
    refine ⟨?_, ?_, ?_⟩
    · rcases hcase with ⟨hj, _⟩ | ⟨i0, q0, hget, hj, _, _, _⟩
      · simp only [List.length_cons]
        omega
      · have hlt : i0 < rest.length := (List.get?_eq_some.mp hget).1
        simp only [List.length_cons]
        omega
    · intro j' q hq
      rw [hdjval]
      cases j' with
      | zero =>
        cases hq
        exact hle
      | succ i' => exact hmin i' q hq
    · intro j' q hj' hq
      rw [hdjval]
      rcases hcase with ⟨hj, hdj⟩ | ⟨i0, q0, hget, hj, hdj, hdlt, hfirst⟩
      · omega
      · cases j' with
        | zero =>
          cases hq
          exact hdlt
        | succ i' =>
          refine hfirst i' q ?_ hq
          omega

/-- C6: the split loop finds the segment point with minimum distance to
the target and resolves exact ties to the lowest index; in particular a
target exactly equidistant from points `i` and `i+1` (with `i` first among
the minima) resolves to `i`. -/
theorem c6_split_first_closest (dist : Coordinates → Coordinates → Nat) (seg : TrackSegment)
    (coordinates : Coordinates) (hne : seg.trkpt ≠ []) :
    (splitClosestIndex dist seg coordinates < seg.trkpt.length ∧
      (∀ j p, seg.trkpt.get? j = some p →
        segPointDist dist seg coordinates (splitClosestIndex dist seg coordinates) ≤
          dist p.coord coordinates) ∧
      (∀ j p, j < splitClosestIndex dist seg coordinates → seg.trkpt.get? j = some p →
        segPointDist dist seg coordinates (splitClosestIndex dist seg coordinates) <
          dist p.coord coordinates)) ∧
    (∀ i pi pj, seg.trkpt.get? i = some pi → seg.trkpt.get? (i + 1) = some pj →
      dist pi.coord coordinates = dist pj.coord coordinates →
      (∀ j p, seg.trkpt.get? j = some p →
        dist pi.coord coordinates ≤ dist p.coord coordinates) →
      (∀ j p, j < i → seg.trkpt.get? j = some p →
        dist pi.coord coordinates < dist p.coord coordinates) →
      splitClosestIndex dist seg coordinates = i) := by
  obtain ⟨hrange, hmin, hfirst⟩ := splitClosestIndex_spec dist seg coordinates hne
  refine ⟨⟨hrange, hmin, hfirst⟩, ?_⟩
  intro i pi pj hgi hgj heq hgmin hgfirst
  set m := splitClosestIndex dist seg coordinates with hm
  obtain ⟨hmlen, -⟩ := List.get?_eq_some.mp hgi
  rcases lt_trichotomy m i with h | h | h
  · exfalso
    obtain ⟨pm, hpm⟩ : ∃ pm, seg.trkpt.get? m = some pm := by
      have : m < seg.trkpt.length := hrange
      exact ⟨seg.trkpt.get ⟨m, this⟩, List.get?_eq_get this⟩
    have h1 : dist pi.coord coordinates < dist pm.coord coordinates := hgfirst m pm h hpm
    have h2 : segPointDist dist seg coordinates m ≤ dist pi.coord coordinates := hmin i pi hgi
    have h3 : segPointDist dist seg coordinates m = dist pm.coord coordinates := by
      simp only [segPointDist, hpm, Option.getD_some]
    omega
  · exact h
  · exfalso
    have h1 : segPointDist dist seg coordinates m < dist pi.coord coordinates :=
      hfirst i pi h hgi
    obtain ⟨pm, hpm⟩ : ∃ pm, seg.trkpt.get? m = some pm := by
      have : m < seg.trkpt.length := hrange
      exact ⟨seg.trkpt.get ⟨m, this⟩, List.get?_eq_get this⟩
    have h2 : dist pi.coord coordinates ≤ dist pm.coord coordinates := hgmin m pm hpm
    have h3 : segPointDist dist seg coordinates m = dist pm.coord coordinates := by
      simp only [segPointDist, hpm, Option.getD_some]
    omega

/-- Witness for C6: a target exactly equidistant (squared distance 1) from
points 0 and 1 of a concrete three-point segment resolves to index 0. -/
theorem c6_split_first_closest_witness :
    splitClosestIndex distSq sampleSegment sampleTarget = 0 :=
  (c6_split_first_closest distSq sampleSegment sampleTarget (by decide)).2 0
    { coord := { lat := 0, lon := 0 } } { coord := { lat := 0, lon := 2 } }
    rfl rfl (by decide)
    (by
      intro j p hp
      have hj : j < 3 := by
        have := (List.get?_eq_some.mp hp).1
        simpa [sampleSegment] using this
      interval_cases j <;> (simp only [sampleSegment, List.get?] at hp) <;>
        (cases hp) <;> decide)
    (by
      intro j p hj hp
      omega)

/-! ### File-level crop (C4) -/

theorem applyGlobal_fileState (cb : DocumentState → DocumentState) (s : UndoRedoState) :
    (applyGlobal cb s).fileState = cb s.fileState := rfl

theorem segment_crop_empty (s : TrackSegment) {start endIdx : Int} (h : endIdx < start) :
    (TrackSegment.crop s start endIdx).trkpt = [] := by
  unfold TrackSegment.crop
  refine List.filterMap_eq_nil.mpr ?_
  intro p _
  rw [if_neg]
  omega

theorem cropSegList_mem_empty (l : List TrackSegment) {start endIdx : Int}
    (h : endIdx < start) : ∀ s ∈ cropSegList l start endIdx, s.trkpt = [] := by
  induction l generalizing start endIdx with
  | nil => intro s hs; cases hs
  | cons s0 rest ih =>
    intro s hs
    rcases List.mem_cons.mp hs with hs | hs
    · rw [hs]
      exact segment_crop_empty s0 h
    · exact ih (by omega) s hs

theorem track_crop_empty (t : Track) {start endIdx : Int} (h : endIdx < start) :
    (Track.crop t start endIdx).trkseg = [] := by
  unfold Track.crop
  refine List.filter_eq_nil.mpr ?_
  intro s hs
  simp [List.isEmpty_iff, cropSegList_mem_empty t.trkseg h s hs]

theorem cropTrkList_mem_empty (l : List Track) {start endIdx : Int}
    (h : endIdx < start) : ∀ t ∈ cropTrkList l start endIdx, t.trkseg = [] := by
  induction l generalizing start endIdx with
  | nil => intro t ht; cases ht
  | cons t0 rest ih =>
    intro t ht
    rcases List.mem_cons.mp ht with ht | ht
    · rw [ht]
      exact track_crop_empty t0 h
    · exact ih (by omega) t ht

theorem file_crop_empty (f : GPXFile) {start endIdx : Int} (h : endIdx < start) :
    f.crop start endIdx = none := by
  unfold GPXFile.crop
  rw [if_pos]
  have htrk : (cropTrkList f.trk start endIdx).filter
      (fun t => t.getNumberOfTrackPoints ≠ 0) = [] := by
    refine List.filter_eq_nil.mpr ?_
    intro t ht
    have hseg := cropTrkList_mem_empty f.trk h t ht
    simp [Track.getNumberOfTrackPoints, hseg]
  rw [htrk]
  rfl

/-- C4: a file-level crop of a file with `N` points to the full range
`[0, N-1]` leaves the file untouched, and a crop to any empty inclusive
range `[k, k-1]` removes the file from the `DocumentState`. -/
theorem c4_crop_file_level (s : UndoRedoState) (fid : FileId) (f : GPXFile)
    (hwf : KVWF s.fileState) (hlook : kvLookup s.fileState fid = some f)
    (hN : 1 ≤ f.getNumberOfTrackPoints) :
    (cropSelection 0 ((f.getNumberOfTrackPoints : Int) - 1)
        [⟨fid, .FILE, [.file fid]⟩] s).fileState = s.fileState ∧
    (∀ k : Int,
      kvLookup (cropSelection k (k - 1) [⟨fid, .FILE, [.file fid]⟩] s).fileState fid
        = none) := by
  constructor
  · show (applyGlobal _ s).fileState = s.fileState
    rw [applyGlobal_fileState]
    show (cropStep (s.fileState, 0, (f.getNumberOfTrackPoints : Int) - 1)
      ⟨fid, .FILE, [.file fid]⟩).1 = s.fileState
    have h1 : ¬((0 : Int) ≥ (f.getNumberOfTrackPoints : Int) ∨
        (f.getNumberOfTrackPoints : Int) - 1 < 0) := by omega
    have h2 : ¬((0 : Int) > 0 ∨
        (f.getNumberOfTrackPoints : Int) - 1 < (f.getNumberOfTrackPoints : Int) - 1) := by
      omega
    simp only [cropStep, hlook, if_neg h1, if_neg h2]
  · intro k
    show kvLookup ((applyGlobal _ s).fileState) fid = none
    rw [applyGlobal_fileState]
    show kvLookup (cropStep (s.fileState, k, k - 1) ⟨fid, .FILE, [.file fid]⟩).1 fid = none
    by_cases hdel : (k ≥ (f.getNumberOfTrackPoints : Int) ∨ k - 1 < 0)
    · simp only [cropStep, hlook, if_pos hdel]
      exact kvLookup_del_self hwf fid
    · have hk1 : (0 : Int) < k := by omega
      have hpos : (k > 0 ∨ k - 1 < (f.getNumberOfTrackPoints : Int) - 1) := Or.inl hk1
      have hmax : max (0 : Int) k = k := max_eq_right (by omega)
      have hmin : min ((f.getNumberOfTrackPoints : Int) - 1) (k - 1) = k - 1 :=
        min_eq_right (by omega)
      simp only [cropStep, hlook, if_neg hdel, if_pos hpos, hmax, hmin,
        file_crop_empty f (show k - 1 < k by omega)]
      exact kvLookup_del_self hwf fid

/-- Witness for C4 at a concrete two-point file: cropping to `[0, 1]` is
the identity and cropping to the empty range `[1, 0]` deletes the file. -/
theorem c4_crop_file_level_witness :
    (cropSelection 0 1 [⟨0, .FILE, [.file 0]⟩]
        { fileState := [(0, sampleFileA)], patches := [], patchIndex := -1 }).fileState =
      [(0, sampleFileA)] ∧
    kvLookup (cropSelection 1 0 [⟨0, .FILE, [.file 0]⟩]
        { fileState := [(0, sampleFileA)], patches := [], patchIndex := -1 }).fileState 0
      = none := by
  have h := c4_crop_file_level
    { fileState := [(0, sampleFileA)], patches := [], patchIndex := -1 } 0 sampleFileA
    (by simp [KVWF, kvKeys]) rfl (by decide)
  refine ⟨?_, ?_⟩
  · have := h.1
    simpa [sampleFileA, GPXFile.getNumberOfTrackPoints, Track.getNumberOfTrackPoints,
      samplePointA, samplePointB] using this
  · have := h.2 1
    simpa using this

/-! ### Extract waypoint assignment (C7) -/

theorem replaceRange_all (l new : List α) :
    replaceRange l 0 ((l.length : Int) - 1) new = new := by
  have hs : min (max (0 : Int) 0).toNat l.length = 0 := by omega
  have hd : min (max ((l.length : Int) - 1 + 1) ((0 : Nat) : Int)).toNat l.length
      = l.length := by omega
  simp only [replaceRange, hs, hd, List.take_zero, List.drop_length, List.nil_append,
    List.append_nil]

theorem updateClosest_wptIndex (c : WptClosest) (i d : Nat) :
    (updateClosest c i d).wptIndex = c.wptIndex := by
  unfold updateClosest
  cases hc : c.distance with
  | none => rfl
  | some m =>
    dsimp only
    split_ifs <;> rfl

theorem closestFor_wptIndex (dist : Coordinates → Coordinates → Nat)
    (labeled : List (Nat × TrackPoint)) (wi : Nat) (w : Waypoint) :
    (closestFor dist labeled wi w).wptIndex = wi := by
  unfold closestFor
  suffices h : ∀ c0 : WptClosest,
      (labeled.foldl (fun c ip => updateClosest c ip.1 (dist ip.2.coord w.coord))
        c0).wptIndex = c0.wptIndex by
    exact h _
  intro c0
  induction labeled generalizing c0 with
  | nil => rfl
  | cons ip rest ih =>
    rw [List.foldl_cons, ih]
    exact updateClosest_wptIndex c0 ip.1 _

theorem closestFold_spec (dist : Coordinates → Coordinates → Nat) (w : Waypoint) :
    ∀ (labeled : List (Nat × TrackPoint)) (c0 : WptClosest) (d0 : Nat),
    c0.distance = some d0 →
    ∃ dm,
      (labeled.foldl (fun c ip => updateClosest c ip.1 (dist ip.2.coord w.coord))
          c0).distance = some dm ∧
      dm ≤ d0 ∧
      (∀ ip ∈ labeled, dm ≤ dist ip.2.coord w.coord) ∧
      (dm = d0 ∨ ∃ ip ∈ labeled, dist ip.2.coord w.coord = dm) ∧
      (∀ j,
        j ∈ (labeled.foldl (fun c ip => updateClosest c ip.1 (dist ip.2.coord w.coord))
            c0).index ↔
        ((dm = d0 ∧ j ∈ c0.index) ∨ ∃ p, (j, p) ∈ labeled ∧ dist p.coord w.coord = dm)) := by
  intro labeled
  induction labeled with
  | nil =>
    intro c0 d0 h0
    refine ⟨d0, h0, le_refl _, ?_, Or.inl rfl, ?_⟩
    · intro ip hip
      simp at hip
    · intro j
      simp
  | cons ip rest ih =>
    intro c0 d0 h0
    rcases lt_trichotomy (dist ip.2.coord w.coord) d0 with hlt | heq | hgt
    · obtain ⟨dm, hdist, hle, hmin, hach, hmem⟩ :=
        ih { wptIndex := c0.wptIndex, index := [ip.1],
             distance := some (dist ip.2.coord w.coord) } (dist ip.2.coord w.coord) rfl
      have hstep : updateClosest c0 ip.1 (dist ip.2.coord w.coord) =
          { wptIndex := c0.wptIndex, index := [ip.1],
            distance := some (dist ip.2.coord w.coord) } := by
        simp only [updateClosest, h0, if_pos hlt]
      refine ⟨dm, ?_, by omega, ?_, ?_, ?_⟩
      · simpa only [List.foldl_cons, hstep] using hdist
      · intro iq hiq
        rcases List.mem_cons.mp hiq with h | h
        · rw [h]
          exact hle
        · exact hmin iq h
      · rcases hach with hdm | ⟨iq, hiq, hiqd⟩
        · exact Or.inr ⟨ip, List.mem_cons_self _ _, hdm.symm⟩
        · exact Or.inr ⟨iq, List.mem_cons_of_mem _ hiq, hiqd⟩
      · intro j
        simp only [List.foldl_cons, hstep]
        rw [hmem j]
        constructor
        · rintro (⟨hdm, hj⟩ | ⟨p, hp, hpd⟩)
          · have hj1 : j = ip.1 := by simpa using hj
            refine Or.inr ⟨ip.2, ?_, hdm.symm⟩
            rw [hj1, Prod.mk.eta]
            exact List.mem_cons_self _ _
          · exact Or.inr ⟨p, List.mem_cons_of_mem _ hp, hpd⟩
        · rintro (⟨hdm, hj⟩ | ⟨p, hp, hpd⟩)
          · exact absurd hdm (by omega)
          · rcases List.mem_cons.mp hp with h | h
            · have hj1 : j = ip.1 := by rw [← h]
              have hp2 : p = ip.2 := by rw [← h]
              rw [hp2] at hpd
              refine Or.inl ⟨hpd.symm, ?_⟩
              rw [hj1]
              exact List.mem_singleton.mpr rfl
            · exact Or.inr ⟨p, h, hpd⟩
    · obtain ⟨dm, hdist, hle, hmin, hach, hmem⟩ :=
        ih { wptIndex := c0.wptIndex, index := c0.index ++ [ip.1],
             distance := some d0 } d0 rfl
      have hstep : updateClosest c0 ip.1 (dist ip.2.coord w.coord) =
          { wptIndex := c0.wptIndex, index := c0.index ++ [ip.1],
            distance := some d0 } := by
        simp only [updateClosest, h0, if_neg (by omega : ¬ dist ip.2.coord w.coord < d0),
          if_pos heq]
      refine ⟨dm, ?_, hle, ?_, ?_, ?_⟩
      · simpa only [List.foldl_cons, hstep] using hdist
      · intro iq hiq
        rcases List.mem_cons.mp hiq with h | h
        · rw [h]
          omega
        · exact hmin iq h
      · rcases hach with hdm | ⟨iq, hiq, hiqd⟩
        · exact Or.inl hdm
        · exact Or.inr ⟨iq, List.mem_cons_of_mem _ hiq, hiqd⟩
      · intro j
        simp only [List.foldl_cons, hstep]
        rw [hmem j]
        constructor
        · rintro (⟨hdm, hj⟩ | ⟨p, hp, hpd⟩)
          · rcases List.mem_append.mp hj with hj | hj
            · exact Or.inl ⟨hdm, hj⟩
            · have hj1 : j = ip.1 := by simpa using hj
              refine Or.inr ⟨ip.2, ?_, by omega⟩
              rw [hj1, Prod.mk.eta]
              exact List.mem_cons_self _ _
          · exact Or.inr ⟨p, List.mem_cons_of_mem _ hp, hpd⟩
        · rintro (⟨hdm, hj⟩ | ⟨p, hp, hpd⟩)
          · exact Or.inl ⟨hdm, List.mem_append_left _ hj⟩
          · rcases List.mem_cons.mp hp with h | h
            · have hj1 : j = ip.1 := by rw [← h]
              have hp2 : p = ip.2 := by rw [← h]
              rw [hp2] at hpd
              refine Or.inl ⟨by omega, List.mem_append_right _ ?_⟩
              rw [hj1]
              exact List.mem_singleton.mpr rfl
            · exact Or.inr ⟨p, h, hpd⟩
    · obtain ⟨dm, hdist, hle, hmin, hach, hmem⟩ := ih c0 d0 h0
      have hstep : updateClosest c0 ip.1 (dist ip.2.coord w.coord) = c0 := by
        simp only [updateClosest, h0, if_neg (by omega : ¬ dist ip.2.coord w.coord < d0),
          if_neg (by omega : ¬ dist ip.2.coord w.coord = d0)]
      refine ⟨dm, ?_, hle, ?_, ?_, ?_⟩
      · simpa only [List.foldl_cons, hstep] using hdist
      · intro iq hiq
        rcases List.mem_cons.mp hiq with h | h
        · rw [h]
          omega
        · exact hmin iq h
      · rcases hach with hdm | ⟨iq, hiq, hiqd⟩
        · exact Or.inl hdm
        · exact Or.inr ⟨iq, List.mem_cons_of_mem _ hiq, hiqd⟩
      · intro j
        simp only [List.foldl_cons, hstep]
        rw [hmem j]
        constructor
        · rintro (⟨hdm, hj⟩ | ⟨p, hp, hpd⟩)
          · exact Or.inl ⟨hdm, hj⟩
          · exact Or.inr ⟨p, List.mem_cons_of_mem _ hp, hpd⟩
        · rintro (⟨hdm, hj⟩ | ⟨p, hp, hpd⟩)
          · exact Or.inl ⟨hdm, hj⟩
          · rcases List.mem_cons.mp hp with h | h
            · exfalso
              have hp2 : p = ip.2 := by rw [← h]
              rw [hp2] at hpd
              omega
            · exact Or.inr ⟨p, h, hpd⟩

theorem closestFor_spec (dist : Coordinates → Coordinates → Nat)
    (labeled : List (Nat × TrackPoint)) (wi : Nat) (w : Waypoint) (hne : labeled ≠ []) :
    ∃ dm, (closestFor dist labeled wi w).distance = some dm ∧
      (∀ ip ∈ labeled, dm ≤ dist ip.2.coord w.coord) ∧
      (∃ ip ∈ labeled, dist ip.2.coord w.coord = dm) ∧
      (∀ j, j ∈ (closestFor dist labeled wi w).index ↔
        ∃ p, (j, p) ∈ labeled ∧ dist p.coord w.coord = dm) := by
  cases labeled with
  | nil => exact absurd rfl hne
  | cons ip0 rest =>
    obtain ⟨dm, hdist, hle, hmin, hach, hmem⟩ :=
      closestFold_spec dist w rest
        { wptIndex := wi, index := [ip0.1], distance := some (dist ip0.2.coord w.coord) }
        (dist ip0.2.coord w.coord) rfl
    have hexp : closestFor dist (ip0 :: rest) wi w =
        rest.foldl (fun c ip => updateClosest c ip.1 (dist ip.2.coord w.coord))
          { wptIndex := wi, index := [ip0.1],
            distance := some (dist ip0.2.coord w.coord) } := by
      unfold closestFor
      rw [List.foldl_cons]
      rfl
    refine ⟨dm, ?_, ?_, ?_, ?_⟩
    · rw [hexp]
      exact hdist
    · intro iq hiq
      rcases List.mem_cons.mp hiq with h | h
      · rw [h]
        exact hle
      · exact hmin iq h
    · rcases hach with hdm | ⟨iq, hiq, hiqd⟩
      · exact ⟨ip0, List.mem_cons_self _ _, hdm.symm⟩
      · exact ⟨iq, List.mem_cons_of_mem _ hiq, hiqd⟩
    · intro j
      rw [hexp, hmem j]
      constructor
      · rintro (⟨hdm, hj⟩ | ⟨p, hp, hpd⟩)
        · have hj1 : j = ip0.1 := by simpa using hj
          refine ⟨ip0.2, ?_, hdm.symm⟩
          rw [hj1, Prod.mk.eta]
          exact List.mem_cons_self _ _
        · exact ⟨p, List.mem_cons_of_mem _ hp, hpd⟩
      · rintro ⟨p, hp, hpd⟩
        rcases List.mem_cons.mp hp with h | h
        · have hj1 : j = ip0.1 := by rw [← h]
          have hp2 : p = ip0.2 := by rw [← h]
          rw [hp2] at hpd
          refine Or.inl ⟨hpd.symm, ?_⟩
          rw [hj1]
          exact List.mem_singleton.mpr rfl
        · exact Or.inr ⟨p, h, hpd⟩

theorem mem_labeledPointsByTrack (f : GPXFile) (ti : Nat) (p : TrackPoint) :
    (ti, p) ∈ f.labeledPointsByTrack ↔
      ∃ t, f.trk.get? ti = some t ∧ p ∈ t.getSegments.flatMap TrackSegment.trkpt := by
  unfold GPXFile.labeledPointsByTrack
  constructor
  · intro h
    obtain ⟨tj, htj, hmem⟩ := List.mem_flatMap.mp h
    obtain ⟨q, hq, heq⟩ := List.mem_map.mp hmem
    have h1 : tj.1 = ti := congrArg Prod.fst heq
    have h2 : q = p := congrArg Prod.snd heq
    have hget : f.trk.get? tj.1 = some tj.2 := List.mem_enum_iff_get?.mp htj
    rw [h1] at hget
    exact ⟨tj.2, hget, h2 ▸ hq⟩
  · rintro ⟨t, ht, hp⟩
    exact List.mem_flatMap.mpr ⟨(ti, t), List.mem_enum_iff_get?.mpr ht,
      List.mem_map.mpr ⟨p, hp, rfl⟩⟩

theorem mem_labeledPointsBySegment (t : Track) (si : Nat) (p : TrackPoint) :
    (si, p) ∈ t.labeledPointsBySegment ↔
      ∃ seg, t.trkseg.get? si = some seg ∧ p ∈ seg.trkpt := by
  unfold Track.labeledPointsBySegment
  constructor
  · intro h
    obtain ⟨sj, hsj, hmem⟩ := List.mem_flatMap.mp h
    obtain ⟨q, hq, heq⟩ := List.mem_map.mp hmem
    have h1 : sj.1 = si := congrArg Prod.fst heq
    have h2 : q = p := congrArg Prod.snd heq
    have hget : t.trkseg.get? sj.1 = some sj.2 := List.mem_enum_iff_get?.mp hsj
    rw [h1] at hget
    exact ⟨sj.2, hget, h2 ▸ hq⟩
  · rintro ⟨seg, hseg, hp⟩
    exact List.mem_flatMap.mpr ⟨(si, seg), List.mem_enum_iff_get?.mpr hseg,
      List.mem_map.mpr ⟨p, hp, rfl⟩⟩

theorem extract_assign_mem (dist : Coordinates → Coordinates → Nat)
    (labeled : List (Nat × TrackPoint)) (wpts : List Waypoint) (hnodup : wpts.Nodup)
    (hne : labeled ≠ []) (wi : Nat) (w : Waypoint) (hw : wpts.get? wi = some w) :
    ∃ dm, (∀ ip ∈ labeled, dm ≤ dist ip.2.coord w.coord) ∧
      (∃ ip ∈ labeled, dist ip.2.coord w.coord = dm) ∧
      ∀ ti : Nat,
        (w ∈ ((wpts.enum.map (fun wj => closestFor dist labeled wj.1 wj.2)).filter
            (fun c => c.index.contains ti)).map
            (fun c => (wpts.get? c.wptIndex).getD { coord := { lat := 0, lon := 0 } }) ↔
          ∃ p, (ti, p) ∈ labeled ∧ dist p.coord w.coord = dm) := by
  obtain ⟨dm, hdist, hmin, hach, hmem⟩ := closestFor_spec dist labeled wi w hne
  refine ⟨dm, hmin, hach, ?_⟩
  intro ti
  constructor
  · intro hwmem
    obtain ⟨c, hcfil, hcval⟩ := List.mem_map.mp hwmem
    obtain ⟨hcmem, hcpred⟩ := List.mem_filter.mp hcfil
    obtain ⟨wj, hwj, hceq⟩ := List.mem_map.mp hcmem
    have hgetwj : wpts.get? wj.1 = some wj.2 := List.mem_enum_iff_get?.mp hwj
    have hcwi : c.wptIndex = wj.1 := by
      rw [← hceq]
      exact closestFor_wptIndex dist labeled wj.1 wj.2
    rw [hcwi, hgetwj] at hcval
    have hw2 : wj.2 = w := by simpa using hcval
    have hlen : wi < wpts.length := (List.get?_eq_some.mp hw).1
    have heqget : wpts.get? wi = wpts.get? wj.1 := by rw [hw, hgetwj, hw2]
    have hwi : wi = wj.1 := List.get?_inj hlen hnodup heqget
    have hti : ti ∈ c.index := List.elem_iff.mp hcpred
    rw [← hceq, ← hwi, hw2] at hti
    exact (hmem ti).mp hti
  · rintro ⟨p, hp, hpd⟩
    refine List.mem_map.mpr ⟨closestFor dist labeled wi w, ?_, ?_⟩
    · refine List.mem_filter.mpr ⟨List.mem_map.mpr ⟨(wi, w), ?_, rfl⟩, ?_⟩
      · exact List.mem_enum_iff_get?.mpr hw
      · exact List.elem_iff.mpr ((hmem ti).mpr ⟨p, hp, hpd⟩)
    · rw [closestFor_wptIndex, hw]
      rfl

theorem extractTrackFiles_get (dist : Coordinates → Coordinates → Nat) (f : GPXFile)
    (ti : Nat) (track : Track) (hti : f.trk.get? ti = some track) :
    ∃ doc, (extractTrackFiles dist f).get? ti = some doc ∧
      doc.wpt = ((extractClosestByTrack dist f).filter (fun c => c.index.contains ti)).map
        (fun c => (f.wpt.get? c.wptIndex).getD { coord := { lat := 0, lon := 0 } }) := by
  simp only [extractTrackFiles]
  rw [List.get?_map, List.get?_enum, hti]
  simp only [Option.map_some']
  refine ⟨_, rfl, ?_⟩
  show replaceRange f.wpt 0 ((f.wpt.length : Int) - 1)
      (((extractClosestByTrack dist f).filter (fun c => c.index.contains ti)).map
        (fun c => (f.wpt.get? c.wptIndex).getD { coord := { lat := 0, lon := 0 } })) = _
  exact replaceRange_all f.wpt _

theorem extractSegmentFiles_get (dist : Coordinates → Coordinates → Nat) (f : GPXFile)
    (t0 : Track) (si : Nat) (seg : TrackSegment) (hsi : t0.trkseg.get? si = some seg) :
    ∃ doc, (extractSegmentFiles dist f t0).get? si = some doc ∧
      doc.wpt = ((extractClosestBySegment dist t0 f.wpt).filter
          (fun c => c.index.contains si)).map
        (fun c => (f.wpt.get? c.wptIndex).getD { coord := { lat := 0, lon := 0 } }) := by
  simp only [extractSegmentFiles]
  rw [List.get?_map, List.get?_enum, hsi]
  simp only [Option.map_some']
  refine ⟨_, rfl, ?_⟩
  show replaceRange f.wpt 0 ((f.wpt.length : Int) - 1)
      (((extractClosestBySegment dist t0 f.wpt).filter (fun c => c.index.contains si)).map
        (fun c => (f.wpt.get? c.wptIndex).getD { coord := { lat := 0, lon := 0 } })) = _
  exact replaceRange_all f.wpt _

/-- C7: extract assigns each waypoint of the source file, by nearest-point
distance, to every resulting document whose track (per-track case) or
segment (single-track case) contains a point at the minimal distance `dm`
to that waypoint; ties duplicate the waypoint into all tied documents. -/
theorem c7_extract_waypoint_assignment (dist : Coordinates → Coordinates → Nat)
    (f : GPXFile) (hnodup : f.wpt.Nodup) (wi : Nat) (w : Waypoint)
    (hw : f.wpt.get? wi = some w) :
    (f.labeledPointsByTrack ≠ [] →
      ∃ dm, (∀ ip ∈ f.labeledPointsByTrack, dm ≤ dist ip.2.coord w.coord) ∧
        (∃ ip ∈ f.labeledPointsByTrack, dist ip.2.coord w.coord = dm) ∧
        ∀ ti track, f.trk.get? ti = some track →
          ∃ doc, (extractTrackFiles dist f).get? ti = some doc ∧
            (w ∈ doc.wpt ↔
              ∃ p ∈ track.getSegments.flatMap TrackSegment.trkpt,
                dist p.coord w.coord = dm)) ∧
    (∀ t0, f.trk = [t0] → t0.labeledPointsBySegment ≠ [] →
      ∃ dm, (∀ ip ∈ t0.labeledPointsBySegment, dm ≤ dist ip.2.coord w.coord) ∧
        (∃ ip ∈ t0.labeledPointsBySegment, dist ip.2.coord w.coord = dm) ∧
        ∀ si seg, t0.trkseg.get? si = some seg →
          ∃ doc, (extractSegmentFiles dist f t0).get? si = some doc ∧
            (w ∈ doc.wpt ↔ ∃ p ∈ seg.trkpt, dist p.coord w.coord = dm)) := by
  constructor
  · intro hne
    obtain ⟨dm, hmin, hach, hiff⟩ :=
      extract_assign_mem dist f.labeledPointsByTrack f.wpt hnodup hne wi w hw
    refine ⟨dm, hmin, hach, ?_⟩
    intro ti track hti
    obtain ⟨doc, hdoc, hwpt⟩ := extractTrackFiles_get dist f ti track hti
    refine ⟨doc, hdoc, ?_⟩
    rw [hwpt]
    refine Iff.trans (hiff ti) ?_
    constructor
    · rintro ⟨p, hp, hpd⟩
      obtain ⟨t', ht', hpt⟩ := (mem_labeledPointsByTrack f ti p).mp hp
      rw [hti] at ht'
      obtain rfl := Option.some.inj ht'
      exact ⟨p, hpt, hpd⟩
    · rintro ⟨p, hpt, hpd⟩
      exact ⟨p, (mem_labeledPointsByTrack f ti p).mpr ⟨track, hti, hpt⟩, hpd⟩
  · intro t0 htrk hne
    obtain ⟨dm, hmin, hach, hiff⟩ :=
      extract_assign_mem dist t0.labeledPointsBySegment f.wpt hnodup hne wi w hw
    refine ⟨dm, hmin, hach, ?_⟩
    intro si seg hsi
    obtain ⟨doc, hdoc, hwpt⟩ := extractSegmentFiles_get dist f t0 si seg hsi
    refine ⟨doc, hdoc, ?_⟩
    rw [hwpt]
    refine Iff.trans (hiff si) ?_
    constructor
    · rintro ⟨p, hp, hpd⟩
      obtain ⟨seg', hseg', hpt⟩ := (mem_labeledPointsBySegment t0 si p).mp hp
      rw [hsi] at hseg'
      obtain rfl := Option.some.inj hseg'
      exact ⟨p, hpt, hpd⟩
    · rintro ⟨p, hpt, hpd⟩
      exact ⟨p, (mem_labeledPointsBySegment t0 si p).mpr ⟨seg, hsi, hpt⟩, hpd⟩

/-- Witness for C7: on a two-track file whose single waypoint is exactly
equidistant (squared distance 1) from the nearest point of both tracks,
the waypoint is duplicated into both extracted documents. -/
theorem c7_extract_waypoint_assignment_witness :
    (∃ doc, (extractTrackFiles distSq sampleExtractFile).get? 0 = some doc ∧
      sampleWpt ∈ doc.wpt) ∧
    (∃ doc, (extractTrackFiles distSq sampleExtractFile).get? 1 = some doc ∧
      sampleWpt ∈ doc.wpt) := by
  obtain ⟨h1, -⟩ :=
    c7_extract_waypoint_assignment distSq sampleExtractFile (by decide) 0 sampleWpt rfl
  obtain ⟨dm, hmin, hach, hiff⟩ := h1 (by decide)
  have hall : ∀ ip ∈ sampleExtractFile.labeledPointsByTrack,
      distSq ip.2.coord sampleWpt.coord = 1 := by decide
  obtain ⟨ip, hip, hipd⟩ := hach
  have hdm : dm = 1 := by
    rw [← hipd]
    exact hall ip hip
  constructor
  · obtain ⟨doc, hdoc, hdiff⟩ :=
      hiff 0 { trkseg := [{ trkpt := [{ coord := { lat := 0, lon := 0 } }] }] } rfl
    exact ⟨doc, hdoc, hdiff.mpr ⟨{ coord := { lat := 0, lon := 0 } }, by decide,
      by rw [hdm]; decide⟩⟩
  · obtain ⟨doc, hdoc, hdiff⟩ :=
      hiff 1 { trkseg := [{ trkpt := [{ coord := { lat := 0, lon := 2 } }] }] } rfl
    exact ⟨doc, hdoc, hdiff.mpr ⟨{ coord := { lat := 0, lon := 2 } }, by decide,
      by rw [hdm]; decide⟩⟩

/-! ### Merge target and concatenation (C5) -/

theorem kvLookup_none_del {κ α : Type} [DecidableEq κ] (l : KVList κ α) (k k' : κ)
    (h : kvLookup l k = none) : kvLookup (kvDel l k') k = none := by
  induction l with
  | nil => rfl
  | cons e t ih =>
    obtain ⟨k0, v⟩ := e
    rw [kvLookup] at h
    by_cases hk : k = k0
    · rw [if_pos hk] at h
      cases h
    · rw [if_neg hk] at h
      rw [kvDel]
      by_cases hk' : k' = k0
      · rw [if_pos hk']
        exact h
      · rw [if_neg hk', kvLookup, if_neg hk]
        exact ih h

theorem kvDelFold_ne (rest : List (FileId × GPXFile)) :
    ∀ (d : DocumentState) (k : FileId), k ∉ rest.map Prod.fst →
      kvLookup (rest.foldl (fun d ef => kvDel d ef.1) d) k = kvLookup d k := by
  induction rest with
  | nil => intro d k _; rfl
  | cons ef0 rest' ih =>
    intro d k hk
    rw [List.map_cons, List.mem_cons] at hk
    push_neg at hk
    rw [List.foldl_cons, ih (kvDel d ef0.1) k hk.2]
    exact kvLookup_del_ne d ef0.1 k hk.1

theorem kvDelFold_none (rest : List (FileId × GPXFile)) :
    ∀ (d : DocumentState) (k : FileId), kvLookup d k = none →
      kvLookup (rest.foldl (fun d ef => kvDel d ef.1) d) k = none := by
  induction rest with
  | nil => intro d k h; exact h
  | cons ef0 rest' ih =>
    intro d k h
    rw [List.foldl_cons]
    exact ih (kvDel d ef0.1) k (kvLookup_none_del d k ef0.1 h)

theorem kvDelFold_mem_none (rest : List (FileId × GPXFile)) :
    ∀ (d : DocumentState), KVWF d → ∀ ef ∈ rest,
      kvLookup (rest.foldl (fun d ef => kvDel d ef.1) d) ef.1 = none := by
  induction rest with
  | nil => intro d _ ef hef; cases hef
  | cons ef0 rest' ih =>
    intro d hwf ef hef
    rw [List.foldl_cons]
    rcases List.mem_cons.mp hef with h | h
    · rw [h]
      exact kvDelFold_none rest' (kvDel d ef0.1) ef0.1 (kvLookup_del_self hwf ef0.1)
    · exact ih (kvDel d ef0.1) (kvWF_del hwf ef0.1) ef h

theorem modify_modify {α : Type} (l : List α) (i : Nat) (g1 g2 : α → α) :
    (l.modify g1 i).modify g2 i = l.modify (fun x => g2 (g1 x)) i := by
  apply List.ext_getElem?
  intro n
  simp only [List.getElem?_modify]
  cases l[n]? with
  | none => rfl
  | some a =>
    by_cases h : i = n <;> simp [h]

theorem mergeSelection_fileState (retime : List TrackPoint → List TrackPoint)
    (trav : Traversal) (s : UndoRedoState) :
    (mergeSelection retime false trav s).fileState =
      mergeFinish (trav.foldl (mergeStep s.fileState) (mergeInit s.fileState)) := rfl

theorem mergeInit_target (d : DocumentState) : (mergeInit d).target = ListItem.root := rfl

theorem mergeInit_trkseg (d : DocumentState) : (mergeInit d).toMergeTrkseg = [] := rfl

theorem mergeStep_file_first (orig : DocumentState) (acc : MergeAcc) (fid : FileId)
    (f file : GPXFile) (items : List ListItem)
    (hdraft : kvLookup acc.draft fid = some file)
    (horig : kvLookup orig fid = some f) (hfirst : acc.first = true) :
    mergeStep orig acc ⟨fid, .FILE, items⟩ =
      { acc with
          target := items.headD ListItem.root
          targetFile := some fid
          first := false
          toMergeTrk := acc.toMergeTrk ++ f.trk
          toMergeWpt := acc.toMergeWpt ++ f.wpt } := by
  simp only [mergeStep, hdraft, horig, hfirst, if_true]

theorem mergeStep_file_notfirst (orig : DocumentState) (acc : MergeAcc) (fid : FileId)
    (f file : GPXFile) (items : List ListItem)
    (hdraft : kvLookup acc.draft fid = some file)
    (horig : kvLookup orig fid = some f) (hfirst : acc.first = false) :
    mergeStep orig acc ⟨fid, .FILE, items⟩ =
      { acc with
          draft := kvDel acc.draft fid
          first := false
          toMergeTrk := acc.toMergeTrk ++ f.trk
          toMergeWpt := acc.toMergeWpt ++ f.wpt } := by
  simp only [mergeStep, hdraft, horig, hfirst, Bool.false_eq_true, if_false]

theorem mergeStep_track (orig : DocumentState) (acc : MergeAcc) (fid : FileId)
    (items : List ListItem) (f file : GPXFile)
    (hdraft : kvLookup acc.draft fid = some file) (horig : kvLookup orig fid = some f) :
    mergeStep orig acc ⟨fid, .TRACK, items⟩ =
      { acc with
          draft := kvPut acc.draft fid
            (mergeTrackItems f items file acc.target acc.toMergeTrkseg).1
          target := (mergeTrackItems f items file acc.target acc.toMergeTrkseg).2.1
          toMergeTrkseg := (mergeTrackItems f items file acc.target acc.toMergeTrkseg).2.2
          targetFile := some fid
          first := false } := by
  simp only [mergeStep, hdraft, horig]

theorem mergeStep_segment (orig : DocumentState) (acc : MergeAcc) (fid : FileId)
    (items : List ListItem) (f file : GPXFile)
    (hdraft : kvLookup acc.draft fid = some file) (horig : kvLookup orig fid = some f) :
    mergeStep orig acc ⟨fid, .SEGMENT, items⟩ =
      { acc with
          draft := kvPut acc.draft fid
            (mergeSegmentItems f items file acc.target acc.toMergeTrkseg).1
          target := (mergeSegmentItems f items file acc.target acc.toMergeTrkseg).2.1
          toMergeTrkseg := (mergeSegmentItems f items file acc.target acc.toMergeTrkseg).2.2
          targetFile := some fid
          first := false } := by
  simp only [mergeStep, hdraft, horig]

theorem mergeFinish_file (acc : MergeAcc) (fid : FileId) (tf : GPXFile)
    (htf : acc.targetFile = some fid) (htgt : acc.target = .file fid)
    (hlook : kvLookup acc.draft fid = some tf) :
    mergeFinish acc = kvPut acc.draft fid
      { tf with trk := acc.toMergeTrk, wpt := acc.toMergeWpt } := by
  simp only [mergeFinish, htf, hlook, htgt]
  have h1 : tf.replaceTracks 0 ((tf.trk.length : Int) - 1) acc.toMergeTrk =
      { tf with trk := acc.toMergeTrk } := by
    unfold GPXFile.replaceTracks
    rw [replaceRange_all]
  rw [h1]
  have h2 : GPXFile.replaceWaypoints { tf with trk := acc.toMergeTrk } 0
      ((({ tf with trk := acc.toMergeTrk } : GPXFile).wpt.length : Int) - 1)
      acc.toMergeWpt = { tf with trk := acc.toMergeTrk, wpt := acc.toMergeWpt } := by
    unfold GPXFile.replaceWaypoints
    rw [replaceRange_all]
  rw [h2]

theorem mergeFinish_track (acc : MergeAcc) (fid : FileId) (tfid : FileId) (tk : Nat)
    (tf : GPXFile) (htf : acc.targetFile = some fid)
    (htgt : acc.target = .track tfid tk) (hlook : kvLookup acc.draft fid = some tf) :
    mergeFinish acc =
      kvPut acc.draft fid (tf.replaceTrackSegments tk 0 (-1) acc.toMergeTrkseg) := by
  simp only [mergeFinish, htf, hlook, htgt]

theorem mergeFinish_segment (acc : MergeAcc) (fid : FileId) (tfid : FileId)
    (tk sg : Nat) (tf : GPXFile) (htf : acc.targetFile = some fid)
    (htgt : acc.target = .segment tfid tk sg) (hlook : kvLookup acc.draft fid = some tf) :
    mergeFinish acc =
      kvPut acc.draft fid
        (tf.replaceTrackSegments tk sg ((sg : Int) - 1) acc.toMergeTrkseg) := by
  simp only [mergeFinish, htf, hlook, htgt]

theorem merge_file_fold (orig : DocumentState) :
    ∀ (rest : List (FileId × GPXFile)) (acc : MergeAcc),
    acc.first = false →
    (rest.map Prod.fst).Nodup →
    (∀ ef ∈ rest, kvLookup orig ef.1 = some ef.2) →
    (∀ ef ∈ rest, (kvLookup acc.draft ef.1).isSome) →
    (rest.map (fun ef => (⟨ef.1, .FILE, [.file ef.1]⟩ : TraversalEntry))).foldl
        (mergeStep orig) acc =
      { acc with
          draft := rest.foldl (fun d ef => kvDel d ef.1) acc.draft
          first := false
          toMergeTrk := acc.toMergeTrk ++ rest.flatMap (fun ef => ef.2.trk)
          toMergeWpt := acc.toMergeWpt ++ rest.flatMap (fun ef => ef.2.wpt) } := by
  intro rest
  induction rest with
  | nil =>
    intro acc hfirst _ _ _
    simp only [List.map_nil, List.foldl_nil, List.flatMap_nil, List.append_nil]
    rw [← hfirst]
  | cons ef0 rest' ih =>
    intro acc hfirst hnodup horig hsome
    obtain ⟨file, hfile⟩ := Option.isSome_iff_exists.mp (hsome ef0 (List.mem_cons_self _ _))
    have horig0 : kvLookup orig ef0.1 = some ef0.2 := horig ef0 (List.mem_cons_self _ _)
    rw [List.map_cons, List.foldl_cons,
      mergeStep_file_notfirst orig acc ef0.1 ef0.2 file [ListItem.file ef0.1] hfile horig0
        hfirst]
    have hnodup' : (rest'.map Prod.fst).Nodup := (List.nodup_cons.mp hnodup).2
    have hnotmem : ef0.1 ∉ rest'.map Prod.fst := (List.nodup_cons.mp hnodup).1
    rw [ih _ rfl hnodup' (fun ef hef => horig ef (List.mem_cons_of_mem _ hef)) ?_]
    · simp only [List.foldl_cons, List.flatMap_cons, List.append_assoc]
    · intro ef hef
      have hne : ef.1 ≠ ef0.1 := by
        intro hcontra
        exact hnotmem (hcontra ▸ List.mem_map_of_mem Prod.fst hef)
      rw [show ({ acc with
            draft := kvDel acc.draft ef0.1
            first := false
            toMergeTrk := acc.toMergeTrk ++ ef0.2.trk
            toMergeWpt := acc.toMergeWpt ++ ef0.2.wpt } : MergeAcc).draft
          = kvDel acc.draft ef0.1 from rfl]
      rw [kvLookup_del_ne acc.draft ef0.1 ef.1 hne]
      exact hsome ef (List.mem_cons_of_mem _ hef)

theorem replaceRange_nil (start endIdx : Int) (new : List α) :
    replaceRange ([] : List α) start endIdx new = new := by
  simp [replaceRange]

theorem eraseFold_spec {α : Type} :
    ∀ (sgs : List Nat) (sgt : Nat) (l : List α),
    List.Pairwise (· > ·) (sgs ++ [sgt]) →
    (∀ sg ∈ sgs ++ [sgt], sg < l.length) →
    sgt + sgs.length < l.length ∧
    ((sgs ++ [sgt]).foldl (fun l i => l.eraseIdx i) l).length + sgs.length + 1
      = l.length := by
  intro sgs
  induction sgs with
  | nil =>
    intro sgt l _ hb
    have h1 : sgt < l.length := hb sgt (by simp)
    refine ⟨by simpa using h1, ?_⟩
    simp only [List.nil_append, List.foldl_cons, List.foldl_nil, List.length_nil]
    rw [List.length_eraseIdx_of_lt h1]
    omega
  | cons k0 rest ih =>
    intro sgt l hp hb
    have hk0 : k0 < l.length := hb k0 (by simp)
    rw [List.cons_append] at hp
    obtain ⟨hhead, htail⟩ := List.pairwise_cons.mp hp
    have hb' : ∀ sg ∈ rest ++ [sgt], sg < (l.eraseIdx k0).length := by
      intro sg hsg
      rw [List.length_eraseIdx_of_lt hk0]
      have := hhead sg hsg
      omega
    obtain ⟨h1, h2⟩ := ih sgt (l.eraseIdx k0) htail hb'
    rw [List.length_eraseIdx_of_lt hk0] at h1 h2
    constructor
    · simp only [List.length_cons]
      omega
    · simp only [List.cons_append, List.foldl_cons, List.length_cons]
      omega

theorem mergeTrackFold_aux (f : GPXFile) (fid : FileId) (n : Nat) :
    ∀ (ks : List Nat) (kt : Nat) (i : Nat)
      (acc : GPXFile × ListItem × List TrackSegment),
    i + ks.length = n - 1 →
    (List.enumFrom i ((ks ++ [kt]).map (fun k => ListItem.track fid k))).foldl
        (mergeTrackStep f n) acc =
      ({ acc.1 with trk := (listUpdateAt (ks.foldl (fun l k => l.eraseIdx k) acc.1.trk) kt
          (fun t => { t with trkseg := [] })) },
        ListItem.track fid kt,
        (((kt :: ks.reverse).flatMap
          (fun k => ((f.trk.get? k).map Track.trkseg).getD [])) ++ acc.2.2)) := by
  intro ks
  induction ks with
  | nil =>
    intro kt i acc h
    simp only [List.length_nil] at h
    have hi : i = n - 1 := by omega
    simp [mergeTrackStep, ListItem.getTrackIndex, hi, List.enumFrom]
  | cons k0 rest ih =>
    intro kt i acc h
    simp only [List.length_cons] at h
    simp only [List.cons_append, List.map_cons, List.enumFrom_cons, List.foldl_cons]
    have hstep : mergeTrackStep f n acc (i, ListItem.track fid k0) =
        ({ acc.1 with trk := acc.1.trk.eraseIdx k0 }, acc.2.1,
          (((f.trk.get? k0).map Track.trkseg).getD []) ++ acc.2.2) := by
      have hne : ¬ (i = n - 1) := by omega
      simp [mergeTrackStep, ListItem.getTrackIndex, hne]
    rw [hstep, ih kt (i + 1) _ (by omega)]
    simp [List.foldl_cons, List.flatMap_cons, List.flatMap_append, List.flatMap_nil,
      List.append_assoc, List.append_nil, List.reverse_cons]

/-- The track-level item loop, for an arbitrary reversed item list
`ks ++ [kt]`: the LAST item `kt` becomes the target, its segment list is
emptied in the draft, every other selected track is spliced out, and the
collected segments are the original tracks' segment lists concatenated in
user-selected (re-reversed) order, the target's first. -/
theorem mergeTrackItems_general (f file : GPXFile) (fid : FileId) (ks : List Nat)
    (kt : Nat) (target : ListItem) (segs0 : List TrackSegment) :
    mergeTrackItems f ((ks ++ [kt]).map (fun k => ListItem.track fid k))
        file target segs0 =
      ({ file with trk := (listUpdateAt (ks.foldl (fun l k => l.eraseIdx k) file.trk) kt
          (fun t => { t with trkseg := [] })) },
        ListItem.track fid kt,
        (((kt :: ks.reverse).flatMap
          (fun k => ((f.trk.get? k).map Track.trkseg).getD [])) ++ segs0)) := by
  unfold mergeTrackItems
  rw [show List.enum (((ks ++ [kt]).map (fun k => ListItem.track fid k)))
      = List.enumFrom 0 (((ks ++ [kt]).map (fun k => ListItem.track fid k))) from rfl]
  exact mergeTrackFold_aux f fid _ ks kt 0 (file, target, segs0) (by simp)

theorem mergeSegmentFold_aux (f : GPXFile) (fid tk : Nat) (n : Nat) :
    ∀ (sgs : List Nat) (sgt : Nat) (i : Nat)
      (acc : GPXFile × ListItem × List TrackSegment),
    i + sgs.length = n - 1 →
    (List.enumFrom i ((sgs ++ [sgt]).map (fun sg => ListItem.segment fid tk sg))).foldl
        (mergeSegmentStep f n) acc =
      ({ acc.1 with trk := ((sgs ++ [sgt]).foldl (fun l sg => listUpdateAt l tk
          (fun t => { t with trkseg := t.trkseg.eraseIdx sg })) acc.1.trk) },
        ListItem.segment fid tk sgt,
        (((sgt :: sgs.reverse).flatMap (fun sg =>
          (((f.trk.get? tk).map (fun t => t.trkseg.get? sg)).getD none).toList))
          ++ acc.2.2)) := by
  intro sgs
  induction sgs with
  | nil =>
    intro sgt i acc h
    simp only [List.length_nil] at h
    have hi : i = n - 1 := by omega
    simp [mergeSegmentStep, ListItem.getTrackIndex, ListItem.getSegmentIndex, hi,
      List.enumFrom]
  | cons s0 rest ih =>
    intro sgt i acc h
    simp only [List.length_cons] at h
    simp only [List.cons_append, List.map_cons, List.enumFrom_cons, List.foldl_cons]
    have hstep : mergeSegmentStep f n acc (i, ListItem.segment fid tk s0) =
        ({ acc.1 with trk := (listUpdateAt acc.1.trk tk
            (fun t => { t with trkseg := t.trkseg.eraseIdx s0 })) }, acc.2.1,
          ((((f.trk.get? tk).map (fun t => t.trkseg.get? s0)).getD none).toList)
            ++ acc.2.2) := by
      have hne : ¬ (i = n - 1) := by omega
      simp [mergeSegmentStep, ListItem.getTrackIndex, ListItem.getSegmentIndex, hne]
    rw [hstep, ih sgt (i + 1) _ (by omega)]
    simp [List.foldl_cons, List.flatMap_cons, List.flatMap_append, List.flatMap_nil,
      List.append_assoc, List.append_nil, List.reverse_cons]

/-- The segment-level item loop, for an arbitrary reversed item list
`sgs ++ [sgt]` of segments of track `tk`: the LAST item becomes the
target, every selected segment (the target's included) is spliced out of
the draft, and the collected segments are the selected original segments
in user-selected (re-reversed) order, the target's first. -/
theorem mergeSegmentItems_general (f file : GPXFile) (fid tk : Nat) (sgs : List Nat)
    (sgt : Nat) (target : ListItem) (segs0 : List TrackSegment) :
    mergeSegmentItems f ((sgs ++ [sgt]).map (fun sg => ListItem.segment fid tk sg))
        file target segs0 =
      ({ file with trk := ((sgs ++ [sgt]).foldl (fun l sg => listUpdateAt l tk
          (fun t => { t with trkseg := t.trkseg.eraseIdx sg })) file.trk) },
        ListItem.segment fid tk sgt,
        (((sgt :: sgs.reverse).flatMap (fun sg =>
          (((f.trk.get? tk).map (fun t => t.trkseg.get? sg)).getD none).toList))
          ++ segs0)) := by
  unfold mergeSegmentItems
  rw [show List.enum (((sgs ++ [sgt]).map (fun sg => ListItem.segment fid tk sg)))
      = List.enumFrom 0 (((sgs ++ [sgt]).map (fun sg => ListItem.segment fid tk sg)))
      from rfl]
  exact mergeSegmentFold_aux f fid tk _ sgs sgt 0 (file, target, segs0) (by simp)

/-- Per-item `listUpdateAt` splices at a fixed track index compose into a
single update folding the segment erasures. -/
theorem segEraseFold_modify (sgs : List Nat) (tk : Nat) :
    ∀ (trk : List Track),
    sgs.foldl (fun l sg => listUpdateAt l tk
        (fun t => { t with trkseg := t.trkseg.eraseIdx sg })) trk =
      listUpdateAt trk tk (fun t =>
        { t with trkseg := (sgs.foldl (fun l sg => l.eraseIdx sg) t.trkseg) }) := by
  induction sgs with
  | nil =>
    intro trk
    simp only [List.foldl_nil, listUpdateAt]
    have hid : (fun t : Track => { t with trkseg := t.trkseg }) = id := by
      funext t
      rfl
    rw [hid]
    apply List.ext_getElem?
    intro m
    simp [List.getElem?_modify]
  | cons s0 rest ih =>
    intro trk
    simp only [List.foldl_cons]
    rw [ih]
    simp only [listUpdateAt]
    rw [modify_modify]

/-- C5 counterexample: with two whole files selected at FILE level, the
LAST-visited file (id 1) is deleted and the FIRST-visited file (id 0)
receives the concatenated data — the last-visited item does not become the
merge target, contrary to the claim. -/
theorem c5_merge_last_visited_cex :
    kvLookup (mergeSelection id false
        [⟨0, .FILE, [.file 0]⟩, ⟨1, .FILE, [.file 1]⟩] sampleMergeState).fileState 1
      = none ∧
    kvLookup (mergeSelection id false
        [⟨0, .FILE, [.file 0]⟩, ⟨1, .FILE, [.file 1]⟩] sampleMergeState).fileState 0
      = some { sampleFileA with trk := sampleFileA.trk ++ sampleFileB.trk, wpt := [] } := by
  constructor
  · decide
  · decide

/-- C5 (amended): with `mergeTraces = false`, (a) at FILE level, for any
number of selected files, the FIRST-visited file becomes the merge
target — it receives the concatenation, in traversal order, of all
selected files' tracks and waypoints, and every other selected file is
deleted; (b) at TRACK level, within one entry with an arbitrary item
list `ks ++ [kt]` in descending track-index order (the traversal is
reversed), the LAST item `kt` becomes the target track — it receives the
concatenation of all selected tracks' segment lists in user-selected
(re-reversed) order, its own first, and every other selected track is
removed from its original position; (c) at SEGMENT level, for an
arbitrary item list `sgs ++ [sgt]` of segments of one track in
descending segment-index order, the LAST item becomes the target: every
selected segment is spliced out and their concatenation (the target's
own first) is inserted back at the target's position; all other tracks
are untouched. -/
theorem c5_merge_target_amended (retime : List TrackPoint → List TrackPoint)
    (s : UndoRedoState) (hwf : KVWF s.fileState) :
    (∀ (e0 : FileId × GPXFile) (rest : List (FileId × GPXFile)),
      (∀ ef ∈ e0 :: rest, kvLookup s.fileState ef.1 = some ef.2) →
      ((e0 :: rest).map Prod.fst).Nodup →
      kvLookup (mergeSelection retime false
          ((e0 :: rest).map (fun ef => (⟨ef.1, .FILE, [.file ef.1]⟩ : TraversalEntry)))
          s).fileState e0.1 =
        some { e0.2 with
          trk := ((e0 :: rest).flatMap (fun ef => ef.2.trk))
          wpt := ((e0 :: rest).flatMap (fun ef => ef.2.wpt)) } ∧
      (∀ ef ∈ rest, kvLookup (mergeSelection retime false
          ((e0 :: rest).map (fun ef => (⟨ef.1, .FILE, [.file ef.1]⟩ : TraversalEntry)))
          s).fileState ef.1 = none)) ∧
    (∀ (fid : FileId) (f : GPXFile) (ks : List Nat) (kt : Nat),
      kvLookup s.fileState fid = some f →
      List.Pairwise (· > ·) (ks ++ [kt]) →
      (∀ k ∈ ks ++ [kt], k < f.trk.length) →
      kvLookup (mergeSelection retime false
          [⟨fid, .TRACK, ((ks ++ [kt]).map (fun k => ListItem.track fid k))⟩]
          s).fileState fid =
        some { f with trk := (listUpdateAt (ks.foldl (fun l k => l.eraseIdx k) f.trk) kt
            (fun t => { t with trkseg :=
              ((kt :: ks.reverse).flatMap
                (fun k => ((f.trk.get? k).map Track.trkseg).getD [])) })) }) ∧
    (∀ (fid : FileId) (f : GPXFile) (tk : Nat) (sgs : List Nat) (sgt : Nat) (t : Track),
      kvLookup s.fileState fid = some f → f.trk.get? tk = some t →
      List.Pairwise (· > ·) (sgs ++ [sgt]) →
      (∀ sg ∈ sgs ++ [sgt], sg < t.trkseg.length) →
      ∃ doc, kvLookup (mergeSelection retime false
          [⟨fid, .SEGMENT, ((sgs ++ [sgt]).map (fun sg => ListItem.segment fid tk sg))⟩]
          s).fileState fid = some doc ∧
        doc.trk.get? tk = some { t with trkseg :=
          ((((sgs ++ [sgt]).foldl (fun l sg => l.eraseIdx sg) t.trkseg).take sgt) ++
            ((sgt :: sgs.reverse).flatMap (fun sg => (t.trkseg.get? sg).toList)) ++
            (((sgs ++ [sgt]).foldl (fun l sg => l.eraseIdx sg) t.trkseg).drop sgt)) } ∧
        (∀ j, j ≠ tk → doc.trk.get? j = f.trk.get? j)) := by
  refine ⟨?_, ?_, ?_⟩
  · -- (a) FILE level
    intro e0 rest hlook hnodup
    have hlook0 : kvLookup s.fileState e0.1 = some e0.2 :=
      hlook e0 (List.mem_cons_self _ _)
    rw [List.map_cons] at hnodup
    have hnotmem : e0.1 ∉ rest.map Prod.fst := (List.nodup_cons.mp hnodup).1
    have hnodup' : (rest.map Prod.fst).Nodup := (List.nodup_cons.mp hnodup).2
    have horig' : ∀ ef ∈ rest, kvLookup s.fileState ef.1 = some ef.2 :=
      fun ef hef => hlook ef (List.mem_cons_of_mem _ hef)
    rw [mergeSelection_fileState, List.map_cons,
      List.foldl_cons,
      mergeStep_file_first s.fileState _ e0.1 e0.2 e0.2 [ListItem.file e0.1] hlook0
        hlook0 rfl,
      merge_file_fold s.fileState rest _ rfl hnodup' horig'
        (fun ef hef => by
          dsimp only [mergeInit]
          rw [horig' ef hef]
          rfl)]
    have hlookres : kvLookup (rest.foldl (fun d ef => kvDel d ef.1) s.fileState) e0.1
        = some e0.2 := by
      rw [kvDelFold_ne rest s.fileState e0.1 hnotmem]
      exact hlook0
    rw [mergeFinish_file _ e0.1 e0.2 rfl rfl hlookres]
    constructor
    · rw [kvLookup_put_self]
      simp [List.flatMap_cons, mergeInit]
    · intro ef hef
      have hne : ef.1 ≠ e0.1 := by
        intro hcontra
        exact hnotmem (hcontra ▸ List.mem_map_of_mem Prod.fst hef)
      rw [kvLookup_put_ne _ e0.1 ef.1 _ hne]
      exact kvDelFold_mem_none rest s.fileState hwf ef hef
  · -- (b) TRACK level
    intro fid f ks kt hf hpair hb
    rw [mergeSelection_fileState, List.foldl_cons, List.foldl_nil,
      mergeStep_track s.fileState _ fid ((ks ++ [kt]).map (fun k => ListItem.track fid k))
        f f hf hf]
    rw [mergeInit_target, mergeInit_trkseg]
    rw [mergeTrackItems_general f f fid ks kt ListItem.root []]
    rw [mergeFinish_track _ fid fid kt _ rfl rfl (kvLookup_put_self _ _ _)]
    rw [kvLookup_put_self]
    congr 1
    unfold GPXFile.replaceTrackSegments
    congr 1
    simp only [listUpdateAt]
    rw [modify_modify]
    congr 1
    funext t
    unfold Track.replaceSegments
    rw [replaceRange_nil]
    simp
  · -- (c) SEGMENT level
    intro fid f tk sgs sgt t hf ht hpair hb
    rw [mergeSelection_fileState, List.foldl_cons, List.foldl_nil,
      mergeStep_segment s.fileState _ fid
        ((sgs ++ [sgt]).map (fun sg => ListItem.segment fid tk sg)) f f hf hf]
    rw [mergeInit_target, mergeInit_trkseg]
    rw [mergeSegmentItems_general f f fid tk sgs sgt ListItem.root []]
    rw [mergeFinish_segment _ fid fid tk sgt _ rfl rfl (kvLookup_put_self _ _ _)]
    refine ⟨_, by rw [kvLookup_put_self], ?_, ?_⟩
    · -- the target track
      unfold GPXFile.replaceTrackSegments
      rw [segEraseFold_modify]
      simp only [listUpdateAt]
      rw [modify_modify, List.get?_eq_getElem?, List.getElem?_modify_eq]
      have ht' : f.trk[tk]? = some t := by
        rw [← List.get?_eq_getElem?]
        exact ht
      rw [ht']
      obtain ⟨hlt, hlen⟩ := eraseFold_spec sgs sgt t.trkseg hpair hb
      have hs' : min (max ((sgt : Nat) : Int) 0).toNat
          ((sgs ++ [sgt]).foldl (fun l sg => l.eraseIdx sg) t.trkseg).length = sgt := by
        omega
      have hd' : min (max (((sgt : Nat) : Int) - 1 + 1) ((sgt : Nat) : Int)).toNat
          ((sgs ++ [sgt]).foldl (fun l sg => l.eraseIdx sg) t.trkseg).length = sgt := by
        omega
      unfold Track.replaceSegments replaceRange
      simp only [Option.map_eq_map, Option.map_some']
      rw [hs', hd']
      simp only [ht, Option.map_some', Option.getD_some, List.append_nil]
    · -- other tracks
      intro j hj
      unfold GPXFile.replaceTrackSegments
      rw [segEraseFold_modify]
      simp only [listUpdateAt]
      conv_rhs => rw [List.get?_eq_getElem?]
      rw [modify_modify, List.get?_eq_getElem?, List.getElem?_modify]
      cases f.trk[j]? with
      | none => rfl
      | some a =>
        simp only [Option.map_eq_map, Option.map_some']
        rw [if_neg (fun hcontra => hj hcontra.symm)]

/-- Witness for the amended C5: a concrete two-file merge, a three-item
track-level merge, and a three-item segment-level merge, instantiating
all three levels. -/
theorem c5_merge_target_amended_witness :
    (kvLookup (mergeSelection id false
        (([((0 : FileId), sampleFileA), ((1 : FileId), sampleFileB)]).map
          (fun ef => (⟨ef.1, .FILE, [.file ef.1]⟩ : TraversalEntry)))
        sampleMergeState).fileState 0 =
      some { sampleFileA with
        trk := (([((0 : FileId), sampleFileA), ((1 : FileId), sampleFileB)]).flatMap
          (fun ef => ef.2.trk))
        wpt := (([((0 : FileId), sampleFileA), ((1 : FileId), sampleFileB)]).flatMap
          (fun ef => ef.2.wpt)) }) ∧
    (kvLookup (mergeSelection id false
        [⟨0, .TRACK, ((([2, 1] : List Nat) ++ [0]).map (fun k => ListItem.track 0 k))⟩]
        sampleThreeTrackState).fileState 0 =
      some { sampleThreeTrackFile with
        trk := (listUpdateAt (([2, 1] : List Nat).foldl
            (fun (l : List Track) k => l.eraseIdx k) sampleThreeTrackFile.trk) 0
          (fun t => { t with trkseg :=
            ((0 :: ([2, 1] : List Nat).reverse).flatMap
              (fun k => ((sampleThreeTrackFile.trk.get? k).map Track.trkseg).getD [])) })) }) ∧
    (∃ doc, kvLookup (mergeSelection id false
        [⟨0, .SEGMENT,
          ((([2, 1] : List Nat) ++ [0]).map (fun sg => ListItem.segment 0 0 sg))⟩]
        sampleSeg3State).fileState 0 = some doc ∧
      doc.trk.get? 0 = some { sampleSeg3Track with trkseg :=
        ((((([2, 1] : List Nat) ++ [0]).foldl
            (fun (l : List TrackSegment) sg => l.eraseIdx sg)
            sampleSeg3Track.trkseg).take 0) ++
          ((0 :: ([2, 1] : List Nat).reverse).flatMap
            (fun sg => (sampleSeg3Track.trkseg.get? sg).toList)) ++
          (((([2, 1] : List Nat) ++ [0]).foldl
            (fun (l : List TrackSegment) sg => l.eraseIdx sg)
            sampleSeg3Track.trkseg).drop 0)) } ∧
      (∀ j, j ≠ 0 → doc.trk.get? j = sampleSeg3File.trk.get? j)) := by
  obtain ⟨hA, -, -⟩ := c5_merge_target_amended id sampleMergeState
    (by simp [sampleMergeState, KVWF, kvKeys])
  obtain ⟨-, hB, -⟩ := c5_merge_target_amended id sampleThreeTrackState
    (by simp [sampleThreeTrackState, KVWF, kvKeys])
  obtain ⟨-, -, hC⟩ := c5_merge_target_amended id sampleSeg3State
    (by simp [sampleSeg3State, KVWF, kvKeys])
  refine ⟨(hA (0, sampleFileA) [(1, sampleFileB)] (by decide) (by decide)).1, ?_, ?_⟩
  · exact hB 0 sampleThreeTrackFile [2, 1] 0 rfl (by decide) (by decide)
  · exact hC 0 sampleSeg3File 0 [2, 1] 0 sampleSeg3Track rfl rfl (by decide) (by decide)

end GpxStudio
